import Mathlib

/-!
# Verification of the invoker core of penguintechinc/openwhisk-arm

A shallow embedding of the invoker components that the specification's
testable properties talk about, together with theorems settling those
properties against the code.

* `Pool`: the warm-container pool of
  `src/services/invoker/internal/container/pool.go` (the `container`
  package).  Time is modelled as natural-number milliseconds, the
  container substrate (Docker) as an ID generator whose create and remove
  calls always succeed, and Go maps as association lists iterated in list
  order (a deterministic refinement of Go's unspecified map order).
* `Proxy`: the HTTP classification logic of `Init` and `Run` in
  `src/services/invoker/internal/runtime/proxy.go`; the HTTP exchange
  itself (library code) is a parameter describing its outcome.
* `Messaging`: the consumer's `processMessage` and `publishErrorResult`
  of the `messaging` package (first file of `src/unnamed/part_001`),
  reduced to the ordered sequence of externally visible effects.
* `Executor`: the control flow of the executor's `HandleInvocation`
  (second file inside `src/services/invoker/internal/container/pool.go`).
* `Logs`: `parseLogs`, `parseLogLine` and `FormatLogs` of the `runtime`
  log-collector (third file of `src/unnamed/part_001`), at the
  granularity of demultiplexed frames; Go's `time.Parse` /
  timestamp formatting (library code) are parameters.
-/

/-! ## Definitions -/

namespace Pool

/-- Pool state of a pooled container (pool.go lines 13-17). -/
inductive PoolState where
  | warm
  | busy
  | paused
deriving DecidableEq

/-- `PooledContainer` (pool.go lines 20-26).  The wrapped `Container`
handle is reduced to its numeric ID; the remaining fields follow the
source: owning runtime, pool state, last-used timestamp and the
initialized action (empty string when the container was only
prewarmed). -/
structure PooledContainer where
  id : Nat
  runtime : String
  state : PoolState
  lastUsed : Nat
  initializedAction : String
deriving DecidableEq

/-- The `runtime -> []*PooledContainer` map of warm containers
(pool.go line 47), as an association list. -/
abbrev WarmMap := List (String × List PooledContainer)

/-- Go map read `m[runtime]`: the first entry with the key, `[]` (Go
`nil`) when absent. -/
def warmLookup (m : WarmMap) (r : String) : List PooledContainer :=
  match m with
  | [] => []
  | (k, cs) :: t => if k = r then cs else warmLookup t r

/-- Go map write `m[runtime] = cs`: replace the first entry with the key,
append a new entry when absent. -/
def warmSet (m : WarmMap) (r : String) (cs : List PooledContainer) : WarmMap :=
  match m with
  | [] => [(r, cs)]
  | (k, l) :: t => if k = r then (k, cs) :: t else (k, l) :: warmSet t r cs

/-- All warm containers, in map-then-slice iteration order. -/
def warmAll : WarmMap → List PooledContainer
  | [] => []
  | (_, cs) :: t => cs ++ warmAll t

/-- The total warm count computed at pool.go lines 159-162
(`totalWarm += len(containers)` over all runtimes). -/
def warmTotal (m : WarmMap) : Nat :=
  (warmAll m).length

/-- `ContainerPool` (pool.go lines 45-56): warm containers keyed by
runtime, busy containers keyed by container ID (the key always equals
`pc.Container.ID`, so the map is carried as a plain list), the prewarm
configuration and the pool bound.  `nextId` models the fresh IDs the
`ContainerManager` hands out on `CreateContainer`. -/
structure ContainerPool where
  warmContainers : WarmMap
  busyContainers : List PooledContainer
  prewarmConfig : List (String × Nat)
  maxPoolSize : Nat
  nextId : Nat
deriving DecidableEq

/-- Go map write `p.busyContainers[pc.Container.ID] = pc`: any entry with
the same ID is overwritten. -/
def busyInsert (l : List PooledContainer) (pc : PooledContainer) : List PooledContainer :=
  l.filter (fun q => q.id != pc.id) ++ [pc]

/-- The index scan of pool.go lines 88-101: the first warm container whose
initialized action matches, paired with the list with that element removed
(`append(containers[:i], containers[i+1:]...)`). -/
def findSameAction (cs : List PooledContainer) (action : String) :
    Option (PooledContainer × List PooledContainer) :=
  match cs with
  | [] => none
  | pc :: rest =>
    if pc.initializedAction = action ∧ pc.state = PoolState.warm then
      some (pc, rest)
    else
      match findSameAction rest action with
      | some (q, rest') => some (q, pc :: rest')
      | none => none

/-- `GetContainer` (pool.go lines 83-136).  Returns the selected container
and the updated pool.  First an action-matching warm container, then the
most recently used warm container of the runtime (its initialized action
is overwritten at line 113), else a fresh container; creation (lines
120-123) is modelled as always succeeding with the next fresh ID. -/
def GetContainer (p : ContainerPool) (now : Nat) (runtime action : String) :
    PooledContainer × ContainerPool :=
  let cs := warmLookup p.warmContainers runtime
  match findSameAction cs action with
  | some (pc, rest) =>
    let pc' := { pc with state := PoolState.busy, lastUsed := now }
    (pc', { p with
      warmContainers := warmSet p.warmContainers runtime rest,
      busyContainers := busyInsert p.busyContainers pc' })
  | none =>
    match cs.getLast? with
    | some pc =>
      let pc' := { pc with state := PoolState.busy, lastUsed := now, initializedAction := action }
      (pc', { p with
        warmContainers := warmSet p.warmContainers runtime cs.dropLast,
        busyContainers := busyInsert p.busyContainers pc' })
    | none =>
      let pc : PooledContainer :=
        { id := p.nextId, runtime := runtime, state := PoolState.busy,
          lastUsed := now, initializedAction := action }
      (pc, { p with
        busyContainers := busyInsert p.busyContainers pc,
        nextId := p.nextId + 1 })

/-- The scan of pool.go lines 365-373 restricted to one runtime's slice:
the first container attaining the least `LastUsed` (the running best is
replaced only on a strict `Before`). -/
def oldestIn (cs : List PooledContainer) : Option PooledContainer :=
  match cs with
  | [] => none
  | pc :: rest =>
    match oldestIn rest with
    | none => some pc
    | some q => if q.lastUsed < pc.lastUsed then some q else some pc

/-- The full scan of pool.go lines 365-373 over all runtimes in map
order. -/
def oldestAll (m : WarmMap) : Option PooledContainer :=
  match m with
  | [] => none
  | (_, cs) :: t =>
    match oldestIn cs, oldestAll t with
    | none, o => o
    | some pc, none => some pc
    | some pc, some q => if q.lastUsed < pc.lastUsed then some q else some pc

/-- The removal at pool.go lines 379-381: drop the found container from
the slice of the runtime where it was found (the first runtime holding
it). -/
def eraseWarm (m : WarmMap) (pc : PooledContainer) : WarmMap :=
  match m with
  | [] => []
  | (k, cs) :: t =>
    if pc ∈ cs then (k, cs.erase pc) :: t else (k, cs) :: eraseWarm t pc

/-- `removeOldestContainer` (pool.go lines 360-387): `none` models its
"no containers to remove" error; the substrate removal always succeeds. -/
def removeOldest (m : WarmMap) : Option (PooledContainer × WarmMap) :=
  match oldestAll m with
  | none => none
  | some pc => some (pc, eraseWarm m pc)

/-- The re-insertion at pool.go lines 174-181: mark warm, stamp
`LastUsed = now`, append to the runtime's slice. -/
def warmAdd (p : ContainerPool) (pc : PooledContainer) (now : Nat) : ContainerPool :=
  let pc' := { pc with state := PoolState.warm, lastUsed := now }
  let cs' := warmLookup p.warmContainers pc.runtime ++ [pc']
  { p with warmContainers := warmSet p.warmContainers pc.runtime cs' }

/-- `ReturnContainer` (pool.go lines 139-184).  `none` models the
"container not found in busy pool" error of line 145 (the pool is then
unchanged).  The busy entry is always deleted first (line 149); with
`reuse = false` the container is destroyed; otherwise, when the pool is
full, the oldest warm container is evicted first — and if there is none
to evict, this container is destroyed instead of inserted (lines
164-172). -/
def ReturnContainer (p : ContainerPool) (now : Nat) (cid : Nat) (reuse : Bool) :
    Option ContainerPool :=
  match p.busyContainers.find? (fun q => q.id == cid) with
  | none => none
  | some pc =>
    let p1 := { p with busyContainers := p.busyContainers.filter (fun q => q.id != cid) }
    if reuse = false then some p1
    else
      if warmTotal p1.warmContainers ≥ p1.maxPoolSize then
        match removeOldest p1.warmContainers with
        | none => some p1
        | some (_, m') => some (warmAdd { p1 with warmContainers := m' } pc now)
      else some (warmAdd p1 pc now)

/-- The stem-cell count of pool.go lines 193-200
(`if pc.InitializedAction == "" { existing++ }`). -/
def stemCount (cs : List PooledContainer) : Nat :=
  (cs.filter (fun pc => pc.initializedAction == "")).length

/-- The creation loop of pool.go lines 204-222 (and, for `ScalePool`,
lines 235-253): create `n` fresh containers for the runtime and append
each to its warm slice as a stem cell. -/
def createStemCells (p : ContainerPool) (now : Nat) (runtime : String) : Nat → ContainerPool
  | 0 => p
  | Nat.succ n =>
    let pc : PooledContainer :=
      { id := p.nextId, runtime := runtime, state := PoolState.warm,
        lastUsed := now, initializedAction := "" }
    let cs' := warmLookup p.warmContainers runtime ++ [pc]
    let p' := { p with
      warmContainers := warmSet p.warmContainers runtime cs',
      nextId := p.nextId + 1 }
    createStemCells p' now runtime n

/-- One iteration of the `PrewarmContainers` loop body (pool.go lines
191-223) for a single runtime: count existing stem cells and create
`count - existing` more (none when the difference is not positive; Go's
loop over a negative bound runs zero times, matching saturating `Nat`
subtraction). -/
def prewarmOne (p : ContainerPool) (now : Nat) (runtime : String) (count : Nat) : ContainerPool :=
  createStemCells p now runtime
    (count - stemCount (warmLookup p.warmContainers runtime))

/-- The loop of `PrewarmContainers` over the configuration snapshot. -/
def prewarmLoop (p : ContainerPool) (now : Nat) : List (String × Nat) → ContainerPool
  | [] => p
  | (r, n) :: t => prewarmLoop (prewarmOne p now r n) now t

/-- `PrewarmContainers` (pool.go lines 187-226).  Container creation is
modelled as always succeeding. -/
def PrewarmContainers (p : ContainerPool) (now : Nat) : ContainerPool :=
  prewarmLoop p now p.prewarmConfig

/-- Go map read with integer default: `p.prewarmConfig[runtime]`. -/
def configGet (m : List (String × Nat)) (r : String) : Nat :=
  match m with
  | [] => 0
  | (k, n) :: t => if k = r then n else configGet t r

/-- Go map write `p.prewarmConfig[runtime] = n`. -/
def configSet (m : List (String × Nat)) (r : String) (n : Nat) : List (String × Nat) :=
  match m with
  | [] => [(r, n)]
  | (k, v) :: t => if k = r then (k, n) :: t else (k, v) :: configSet t r n

/-- The rebuild loop of pool.go lines 275-284: skip the first `toRemove`
stem cells (warm state and empty initialized action), keep everything
else. -/
def dropStems : List PooledContainer → Nat → List PooledContainer
  | [], _ => []
  | pc :: t, 0 => pc :: dropStems t 0
  | pc :: t, Nat.succ k =>
    if pc.state = PoolState.warm ∧ pc.initializedAction = "" then dropStems t k
    else pc :: dropStems t (Nat.succ k)

/-- `ScalePool` (pool.go lines 229-295).  Positive `delta` creates that
many stem cells and raises the prewarm configuration; negative `delta`
drops stem cells from the runtime's slice (the manager-removal loop of
lines 262-272 touches only the substrate) and lowers the configuration,
clamped at zero (lines 287-291). -/
def ScalePool (p : ContainerPool) (now : Nat) (runtime : String) (delta : Int) : ContainerPool :=
  if 0 < delta then
    let p' := createStemCells p now runtime delta.toNat
    let n' := configGet p'.prewarmConfig runtime + delta.toNat
    { p' with prewarmConfig := configSet p'.prewarmConfig runtime n' }
  else if delta < 0 then
    let toRemove := (-delta).toNat
    let remaining := dropStems (warmLookup p.warmContainers runtime) toRemove
    let newCount := (Int.ofNat (configGet p.prewarmConfig runtime) + delta).toNat
    { p with
      warmContainers := warmSet p.warmContainers runtime remaining,
      prewarmConfig := configSet p.prewarmConfig runtime newCount }
  else p

/-- `CleanupIdleContainers` (pool.go lines 298-325): within every
runtime's slice keep the containers that are not both warm and idle
longer than `maxIdle` (`now.Sub(LastUsed) > maxIdle`, saturating like Go's
comparison for timestamps in the future). -/
def CleanupIdleContainers (p : ContainerPool) (now : Nat) (maxIdle : Nat) : ContainerPool :=
  let keep := fun (pc : PooledContainer) =>
    ! decide (pc.state = PoolState.warm ∧ now - pc.lastUsed > maxIdle)
  { p with warmContainers := p.warmContainers.map (fun e => (e.1, e.2.filter keep)) }

/-- `Shutdown` (pool.go lines 409-436): every warm and busy container is
removed and both maps emptied. -/
def Shutdown (p : ContainerPool) : ContainerPool :=
  { p with warmContainers := [], busyContainers := [] }

/-- `NewContainerPool` (pool.go lines 59-76): empty maps. -/
def NewContainerPool (config : List (String × Nat)) (maxSize : Nat) : ContainerPool :=
  { warmContainers := [], busyContainers := [], prewarmConfig := config,
    maxPoolSize := maxSize, nextId := 0 }

/-- Every container ID held by the pool, warm side first. -/
def poolIds (p : ContainerPool) : List Nat :=
  (warmAll p.warmContainers).map (fun pc => pc.id) ++
    p.busyContainers.map (fun pc => pc.id)

/-- Well-formedness: the IDs in the pool are pairwise distinct and below
the next fresh ID.  `NewContainerPool` satisfies it and every pool
operation preserves it. -/
def WF (p : ContainerPool) : Prop :=
  (poolIds p).Nodup ∧ ∀ i ∈ poolIds p, i < p.nextId

/-- The Warm and Busy sets are disjoint (no container ID on both sides). -/
def WarmBusyDisjoint (p : ContainerPool) : Prop :=
  ∀ a ∈ warmAll p.warmContainers, ∀ b ∈ p.busyContainers, a.id ≠ b.id

/-! ### Concrete pools used by counterexamples and witnesses -/

/-- A pool holding one warm container already initialized for action `"A"`. -/
def cex1Pool : ContainerPool :=
  { warmContainers := [("nodejs20", [⟨1, "nodejs20", PoolState.warm, 0, "A"⟩])],
    busyContainers := [], prewarmConfig := [], maxPoolSize := 10, nextId := 2 }

/-- A pool with `maxPoolSize = 0`, no warm containers and one busy container. -/
def cex6Pool : ContainerPool :=
  { warmContainers := [], busyContainers := [⟨7, "nodejs20", PoolState.busy, 3, "A"⟩],
    prewarmConfig := [], maxPoolSize := 0, nextId := 8 }

/-- A full pool (two warm containers, bound two) with one busy container. -/
def wit6Pool : ContainerPool :=
  { warmContainers := [("n", [⟨1, "n", PoolState.warm, 10, "A"⟩]),
                       ("m", [⟨2, "m", PoolState.warm, 4, "B"⟩])],
    busyContainers := [⟨3, "n", PoolState.busy, 12, "C"⟩],
    prewarmConfig := [], maxPoolSize := 2, nextId := 4 }

/-- A small well-formed pool for the invariant witness. -/
def wit2Pool : ContainerPool :=
  { warmContainers := [("go123", [⟨0, "go123", PoolState.warm, 1, ""⟩])],
    busyContainers := [⟨1, "go123", PoolState.busy, 2, "A"⟩],
    prewarmConfig := [("go123", 1)], maxPoolSize := 3, nextId := 2 }

end Pool

namespace Proxy

/-- `RunResult` (proxy.go lines 43-47) as produced by `json.Unmarshal`:
JSON fields absent from the body take Go zero values (empty map, empty
string, 0).  Result-map values are opaque to the invoker and modelled as
strings. -/
structure RunResult where
  result : List (String × String)
  error : String
  statusCode : Int
deriving DecidableEq

/-- The four error types of proxy.go lines 50-89, one constructor each;
the `Cause` of a `ContainerError` and the timeout duration are reduced to
the message. -/
inductive ProxyError where
  | initializationError (message : String) (statusCode : Int) (body : String)
  | executionError (message : String) (statusCode : Int) (body : String)
  | timeoutError (message : String)
  | containerError (message : String)
deriving DecidableEq

/-- The Go type of a `ProxyError`, for distinguishability statements. -/
inductive ErrKind where
  | initialization
  | execution
  | timeout
  | container
deriving DecidableEq

def kindOf : ProxyError → ErrKind
  | ProxyError.initializationError _ _ _ => ErrKind.initialization
  | ProxyError.executionError _ _ _ => ErrKind.execution
  | ProxyError.timeoutError _ => ErrKind.timeout
  | ProxyError.containerError _ => ErrKind.container

/-- Outcome of the HTTP exchange performed by `Init` (proxy.go lines
157-178), as seen by its classification code: either the transport
failed (`netErr`, recording whether the request context had exceeded its
deadline), or a response arrived with a status code, a flag telling
whether reading the body succeeded, and the body text. -/
inductive InitHttp where
  | netErr (deadlineExceeded : Bool)
  | resp (status : Int) (readOk : Bool) (body : String)
deriving DecidableEq

/-- `Init` (proxy.go lines 119-200), classification part.  A transport
error under an exceeded context deadline is a `TimeoutError` (lines
158-165), any other transport error a `ContainerError` (lines 166-170); a
failed body read is non-fatal and leaves an empty body (lines 174-178);
any non-200 status — 4xx and 5xx alike — is one and the same
`InitializationError` carrying the status and body (lines 181-192); 200
is success. -/
def Init : InitHttp → Except ProxyError Unit
  | InitHttp.netErr true => Except.error (ProxyError.timeoutError "init request timed out")
  | InitHttp.netErr false =>
    Except.error (ProxyError.containerError "failed to connect to runtime container")
  | InitHttp.resp status readOk body =>
    if status ≠ 200 then
      Except.error (ProxyError.initializationError "init request returned non-200 status"
        status (if readOk then body else ""))
    else Except.ok ()

/-- Outcome of the HTTP exchange performed by `Run` (proxy.go lines
233-256): transport error (with deadline flag), body read error, or a
response with its status, raw body, and the result of `json.Unmarshal`
on that body (`none` when the body is not valid JSON for `RunResult`). -/
inductive RunHttp where
  | netErr (deadlineExceeded : Bool)
  | readErr
  | resp (status : Int) (body : String) (parsed : Option RunResult)
deriving DecidableEq

/-- `Run` (proxy.go lines 203-289), classification part: transport error
under deadline → `TimeoutError` (lines 236-241), other transport error →
`ContainerError` (lines 242-245), body read error → `ExecutionError`
(lines 250-256), non-200 → `ExecutionError` with status and body (lines
259-270), parse failure → `ExecutionError` with body (lines 273-280),
else the unmarshalled `RunResult`. -/
def Run : RunHttp → Except ProxyError RunResult
  | RunHttp.netErr true => Except.error (ProxyError.timeoutError "run request timed out")
  | RunHttp.netErr false =>
    Except.error (ProxyError.containerError "failed to connect to runtime container")
  | RunHttp.readErr =>
    Except.error (ProxyError.executionError "failed to read run response" 0 "")
  | RunHttp.resp status body parsed =>
    if status ≠ 200 then
      Except.error (ProxyError.executionError "run request returned non-200 status" status body)
    else
      match parsed with
      | none => Except.error (ProxyError.executionError "failed to parse run response" 0 body)
      | some rr => Except.ok rr

/-- The error kind produced by a classified `Init` call (`none` on
success). -/
def initErrKind (h : InitHttp) : Option ErrKind :=
  match Init h with
  | Except.error e => some (kindOf e)
  | Except.ok _ => none

end Proxy

namespace Executor

/-- The activation-response status code that reaches the activations
stream for a completed `/run` call: `HandleInvocation` copies the
runtime-reported `runResp.StatusCode` into the result on success (the
executor file inside pool.go, lines 543-556) and aborts with a wrapped
error on any `Run` failure (lines 525-529), which the consumer converts
into a 500 response (part_001 lines 270-290). -/
def activationStatusCode (o : Except Proxy.ProxyError Proxy.RunResult) : Int :=
  match o with
  | Except.ok rr => rr.statusCode
  | Except.error _ => 500

end Executor

namespace Messaging

/-- `ActionSpec` (part_001 lines 60-67) restricted to the fields
`processMessage` and `publishErrorResult` read (`Namespace` is spelled
`namespc`; exec, limits and parameters are never consulted on these
paths). -/
structure ActionSpec where
  namespc : String
  name : String
  version : String
deriving DecidableEq

/-- `InvocationMessage` (part_001 lines 49-57) restricted to the fields
the consumer reads before handing off to the handler. -/
structure InvocationMessage where
  activationId : String
  action : ActionSpec
  deadline : Int
deriving DecidableEq

/-- `Response` (part_001 lines 112-117); result-map values are opaque and
modelled as strings. -/
structure Response where
  statusCode : Int
  success : Bool
  result : List (String × String)
  error : String
deriving DecidableEq

/-- `ActivationResult` (part_001 lines 98-109) restricted to the fields
the consumer writes on its own paths (`Start`/`End` are `startT`/`endT`;
the duration and log fields keep their Go zero values there and are
omitted). -/
structure ActivationResult where
  activationId : String
  namespc : String
  name : String
  version : String
  response : Response
  startT : Int
  endT : Int
deriving DecidableEq

/-- The error `ActivationResult` built by `publishErrorResult` (part_001
lines 350-363) and, with the handler's error text, by `processMessage`
(lines 277-289): status code 500, success false, both timestamps the
current time. -/
def errorResult (msg : InvocationMessage) (now : Int) (errMsg : String) : ActivationResult :=
  { activationId := msg.activationId
    namespc := msg.action.namespc
    name := msg.action.name
    version := msg.action.version
    response := { statusCode := 500, success := false, result := [], error := errMsg }
    startT := now
    endT := now }

/-- The externally visible effects of `processMessage`, in order:
acknowledging the message (`XAck`), publishing a result to the
activations stream (`XAdd`), and invoking the handler (the only caller of
the pool, hence the only path that can create a sandbox). -/
inductive Effect where
  | ackMsg (messageId : String)
  | publishRes (r : ActivationResult)
  | invokeHandler (activationId : String)
deriving DecidableEq

/-- `processMessage` (part_001 lines 236-308) as its ordered effect
sequence.  `parsed` is the outcome of `parseInvocationMessage` (library
JSON decoding; `none` on a parse error), `handler` the executor.  A parse
error acks only (lines 244-251); a message already past its deadline is
acked FIRST and then an error result is published (lines 253-262, in that
order); otherwise the handler runs, its result — or a 500 error result
wrapping the handler error — is published, and the message is acked
(lines 264-301). -/
def processMessage (now : Int) (messageId : String)
    (parsed : Option InvocationMessage)
    (handler : InvocationMessage → Except String ActivationResult) : List Effect :=
  match parsed with
  | none => [Effect.ackMsg messageId]
  | some m =>
    if now > m.deadline then
      [Effect.ackMsg messageId,
       Effect.publishRes (errorResult m now "Invocation deadline exceeded")]
    else
      let result :=
        match handler m with
        | Except.ok r => r
        | Except.error e => errorResult m now e
      [Effect.invokeHandler m.activationId, Effect.publishRes result,
       Effect.ackMsg messageId]

def isPublish : Effect → Bool
  | Effect.publishRes _ => true
  | _ => false

def isAck : Effect → Bool
  | Effect.ackMsg _ => true
  | _ => false

def isInvoke : Effect → Bool
  | Effect.invokeHandler _ => true
  | _ => false

/-- Number of publications to the activations stream in a trace. -/
def publishCount (t : List Effect) : Nat :=
  (t.filter isPublish).length

/-- Number of acknowledgements in a trace. -/
def ackCount (t : List Effect) : Nat :=
  (t.filter isAck).length

/-- The first publication strictly precedes the first acknowledgement. -/
def publishBeforeAck (t : List Effect) : Prop :=
  t.findIdx isPublish < t.findIdx isAck

instance (t : List Effect) : Decidable (publishBeforeAck t) :=
  Nat.decLt _ _

end Messaging

open Messaging in
/-- A parsed invocation message already past its deadline at processing
time 10. -/
def cex3Msg : Messaging.InvocationMessage :=
  { activationId := "act-1",
    action := { namespc := "ns", name := "fn", version := "0.0.1" }, deadline := 5 }

open Messaging in
/-- A parsed invocation message whose deadline is past at time 20. -/
def cex5Msg : Messaging.InvocationMessage :=
  { activationId := "act-2",
    action := { namespc := "ns2", name := "fn2", version := "0.0.2" }, deadline := 7 }

open Messaging in
/-- A parsed invocation message still within its deadline at time 3. -/
def wit3Msg : Messaging.InvocationMessage :=
  { activationId := "act-3",
    action := { namespc := "ns3", name := "fn3", version := "0.0.3" }, deadline := 9 }

namespace Executor

/-- The external operations `HandleInvocation` (executor file inside
pool.go, lines 482-563) can perform, in order of appearance: acquire a
container from the pool, fetch the action code from the blob store,
`/init` the container, `/run` the action, collect logs, publish the
result, and the deferred return-to-pool or remove (lines 492-499), which
runs last. -/
inductive Step where
  | getContainerStep
  | fetchCodeStep
  | initStep
  | runStep
  | collectLogsStep
  | publishStep
  | returnToPoolStep
  | removeContainerStep
deriving DecidableEq

/-- The tail of `HandleInvocation` from the `/run` call on (lines
521-560): on a run failure the deferred cleanup removes the container;
otherwise logs are collected (failure there is non-fatal, line 532-536),
the result is published and the container is returned to the pool. -/
def runTail (runOk : Bool) : List Step :=
  Step.runStep ::
    (if runOk then [Step.collectLogsStep, Step.publishStep, Step.returnToPoolStep]
     else [Step.removeContainerStep])

/-- `HandleInvocation` (lines 482-563) as its ordered sequence of
external operations, with the outcome of each external call supplied as
a flag.  The code fetch of line 502 is UNCONDITIONAL — it happens on
every invocation that acquired a container, cold or warm; only the
`/init` call is guarded by `isColdStart` (lines 509-519). -/
def HandleInvocation (getOk isColdStart fetchOk initOk runOk : Bool) : List Step :=
  Step.getContainerStep ::
    (if getOk then
      Step.fetchCodeStep ::
        (if fetchOk then
          (if isColdStart then
            Step.initStep ::
              (if initOk then runTail runOk else [Step.removeContainerStep])
           else runTail runOk)
         else [Step.removeContainerStep])
     else [])

end Executor

namespace Logs

/-- The end-of-activation sentinel (`LogMarker`, part_001 runtime file
lines 624-627), as a character list. -/
def logMarker : List Char := "XXX_THE_END_OF_A_WHISK_ACTIVATION_XXX".data

/-- `LogLine` (runtime file lines 631-636); the parsed timestamp is an
opaque number (Go's `time.Time` is produced by the library parser). -/
structure LogLine where
  timestamp : Nat
  stream : List Char
  message : List Char
deriving DecidableEq

/-- One frame of the multiplexed Docker stream as `parseLogs` deframes it
(runtime file lines 716-738): the stream-kind byte of the 8-byte header
and the payload text. -/
structure Frame where
  streamType : Nat
  payload : List Char
deriving DecidableEq

/-- `needle` is a prefix of `hay`. -/
def isPre : List Char → List Char → Bool
  | [], _ => true
  | _ :: _, [] => false
  | a :: as, b :: bs => a == b && isPre as bs

/-- `strings.Contains hay needle`. -/
def containsSub (needle : List Char) : List Char → Bool
  | [] => needle.isEmpty
  | c :: rest => isPre needle (c :: rest) || containsSub needle rest

/-- `needle` occurs contiguously inside `hay`. -/
def Occurs (needle hay : List Char) : Prop :=
  ∃ l r, hay = l ++ needle ++ r

/-- Whitespace as trimmed by `strings.TrimSpace`. -/
def isSpaceChar (c : Char) : Bool :=
  c == ' ' || c == '\t' || c == '\n' || c == '\r'

/-- `strings.TrimSpace` (drop leading and trailing whitespace). -/
def trimSpace (l : List Char) : List Char :=
  ((l.dropWhile isSpaceChar).reverse.dropWhile isSpaceChar).reverse

/-- `strings.SplitN(line, " ", 2)` at its use in `parseLogLine` (runtime
file line 761): the text before the first space and the remainder, or
`none` when the line holds no space (the `len(parts) != 2` error). -/
def splitFirstSpace : List Char → Option (List Char × List Char)
  | [] => none
  | c :: rest =>
    if c = ' ' then some ([], rest)
    else
      match splitFirstSpace rest with
      | some (a, b) => some (c :: a, b)
      | none => none

/-- `parseLogLine` (runtime file lines 759-781).  The RFC3339Nano
timestamp parser (`time.Parse`, library code) is the parameter `tsParse`;
a missing space or an unparsable timestamp is a malformed line
(`none`). -/
def parseLogLine (tsParse : List Char → Option Nat) (line : List Char)
    (streamType : Nat) : Option LogLine :=
  match splitFirstSpace (trimSpace line) with
  | none => none
  | some (tsStr, msg) =>
    match tsParse tsStr with
    | none => none
    | some t =>
      some { timestamp := t
             stream := if streamType = 2 then "stderr".data else "stdout".data
             message := msg }

/-- `parseLogs` (runtime file lines 712-756) over the deframed stream:
malformed frames are skipped (line 744), each parsed line is appended,
and the loop breaks right after the first parsed line containing the
marker (lines 749-752) — frames after it are never read. -/
def parseLogs (tsParse : List Char → Option Nat) : List Frame → List LogLine
  | [] => []
  | f :: rest =>
    match parseLogLine tsParse f.payload f.streamType with
    | none => parseLogs tsParse rest
    | some ll =>
      if containsSub logMarker ll.message then [ll]
      else ll :: parseLogs tsParse rest

/-- Whether a frame parses to a line containing the marker. -/
def markerFrame (tsParse : List Char → Option Nat) (f : Frame) : Bool :=
  match parseLogLine tsParse f.payload f.streamType with
  | some ll => containsSub logMarker ll.message
  | none => false

/-- The `fmt.Sprintf("%s %s: %s", ...)` of `FormatLogs` (runtime file
line 795); the RFC3339Nano timestamp formatter (library code) is the
parameter `fmtTs`. -/
def formatLine (fmtTs : Nat → List Char) (l : LogLine) : List Char :=
  fmtTs l.timestamp ++ ' ' :: (l.stream ++ ':' :: ' ' :: l.message)

/-- `FormatLogs` (runtime file lines 784-799): lines whose message holds
the marker are skipped (lines 788-791), the rest are formatted. -/
def FormatLogs (fmtTs : Nat → List Char) (logs : List LogLine) : List (List Char) :=
  (logs.filter (fun l => ! containsSub logMarker l.message)).map (formatLine fmtTs)

end Logs

open Logs in
/-- The concrete RFC3339Nano stand-in used by the C9 witness and
counterexample: only the one-character timestamp string `"T"` parses. -/
def cex9Ts : List Char → Option Nat :=
  fun s => if s = "T".data then some 0 else none

/-! ## Theorems -/

namespace Pool
/-! ### Structural lemmas about the pool maps -/

theorem warmLookup_warmSet_self (m : WarmMap) (r : String) (cs : List PooledContainer) :
    warmLookup (warmSet m r cs) r = cs := by
  induction m with
  | nil => simp [warmSet, warmLookup]
  | cons e t ih =>
    by_cases h : e.1 = r
    · simp [warmSet, warmLookup, h]
    · simp [warmSet, warmLookup, h, ih]

theorem warmLookup_warmSet_ne (m : WarmMap) (r k : String) (cs : List PooledContainer)
    (h : k ≠ r) : warmLookup (warmSet m r cs) k = warmLookup m k := by
  have hrk : r ≠ k := fun hh => h hh.symm
  induction m with
  | nil => simp [warmSet, warmLookup, hrk]
  | cons e t ih =>
    by_cases he : e.1 = r
    · simp [warmSet, warmLookup, he, hrk]
    · simp [warmSet, warmLookup, he, ih]

theorem warmAll_warmSet (m : WarmMap) (r : String) (cs : List PooledContainer) :
    ∃ u v, warmAll m = u ++ warmLookup m r ++ v ∧
      warmAll (warmSet m r cs) = u ++ cs ++ v := by
  induction m with
  | nil => exact ⟨[], [], by simp [warmAll, warmLookup], by simp [warmSet, warmAll]⟩
  | cons e t ih =>
    by_cases h : e.1 = r
    · refine ⟨[], warmAll t, ?_, ?_⟩
      · simp [warmAll, warmLookup, h]
      · simp [warmSet, warmAll, h]
    · obtain ⟨u, v, h1, h2⟩ := ih
      refine ⟨e.2 ++ u, v, ?_, ?_⟩
      · simp [warmAll, warmLookup, h, h1, List.append_assoc]
      · simp [warmSet, warmAll, h, h2, List.append_assoc]

theorem findSameAction_eq_some {cs : List PooledContainer} {action : String}
    {pc : PooledContainer} {rest : List PooledContainer}
    (h : findSameAction cs action = some (pc, rest)) :
    ∃ u v, cs = u ++ pc :: v ∧ rest = u ++ v ∧
      pc.initializedAction = action ∧ pc.state = PoolState.warm := by
  induction cs generalizing pc rest with
  | nil => simp [findSameAction] at h
  | cons q t ih =>
    by_cases hq : q.initializedAction = action ∧ q.state = PoolState.warm
    · simp [findSameAction, hq] at h
      exact ⟨[], t, by simp [h.1.symm], by simp [h.2.symm], h.1 ▸ hq.1, h.1 ▸ hq.2⟩
    · simp only [findSameAction, if_neg hq] at h
      match hf : findSameAction t action with
      | some (q', rest') =>
        rw [hf] at h
        simp at h
        obtain ⟨u, v, e1, e2, e3, e4⟩ := ih hf
        exact ⟨q :: u, v, by simp [e1, h.1.symm], by simp [← h.2, e2], h.1 ▸ e3, h.1 ▸ e4⟩
      | none => rw [hf] at h; simp at h

theorem getLast?_split {cs : List PooledContainer} {pc : PooledContainer}
    (h : cs.getLast? = some pc) : cs = cs.dropLast ++ [pc] :=
  (List.dropLast_append_getLast? pc h).symm

theorem oldestIn_mem {cs : List PooledContainer} {pc : PooledContainer}
    (h : oldestIn cs = some pc) : pc ∈ cs := by
  induction cs generalizing pc with
  | nil => simp [oldestIn] at h
  | cons q t ih =>
    simp only [oldestIn] at h
    match ht : oldestIn t with
    | none => rw [ht] at h; simp at h; simp [h]
    | some q' =>
      rw [ht] at h
      by_cases hlt : q'.lastUsed < q.lastUsed
      · simp [hlt] at h; exact List.mem_cons_of_mem q (h ▸ ih ht)
      · simp [hlt] at h; simp [h]

theorem oldestIn_none {cs : List PooledContainer} (h : oldestIn cs = none) : cs = [] := by
  cases cs with
  | nil => rfl
  | cons q t =>
    exfalso
    simp only [oldestIn] at h
    match ht : oldestIn t with
    | none => rw [ht] at h; simp at h
    | some q' => rw [ht] at h; by_cases hlt : q'.lastUsed < q.lastUsed <;> simp [hlt] at h

theorem oldestIn_min {cs : List PooledContainer} {pc : PooledContainer}
    (h : oldestIn cs = some pc) : ∀ q ∈ cs, pc.lastUsed ≤ q.lastUsed := by
  induction cs generalizing pc with
  | nil => simp [oldestIn] at h
  | cons q t ih =>
    simp only [oldestIn] at h
    match ht : oldestIn t with
    | none =>
      rw [ht] at h
      simp at h
      subst h
      intro x hx
      rcases List.mem_cons.mp hx with hx | hx
      · subst hx; exact Nat.le_refl _
      · rw [oldestIn_none ht] at hx; simp at hx
    | some q' =>
      rw [ht] at h
      by_cases hlt : q'.lastUsed < q.lastUsed
      · simp [hlt] at h
        subst h
        intro x hx
        rcases List.mem_cons.mp hx with hx | hx
        · subst hx; exact Nat.le_of_lt hlt
        · exact ih ht x hx
      · simp [hlt] at h
        subst h
        intro x hx
        rcases List.mem_cons.mp hx with hx | hx
        · subst hx; exact Nat.le_refl _
        · exact Nat.le_trans (Nat.le_of_not_lt hlt) (ih ht x hx)

theorem warmAll_eq_nil_of_oldestAll_none {m : WarmMap} (h : oldestAll m = none) :
    warmAll m = [] := by
  induction m with
  | nil => rfl
  | cons e t ih =>
    simp only [oldestAll] at h
    match hi : oldestIn e.2, ha : oldestAll t with
    | none, none =>
      rw [hi, ha] at h
      simp [warmAll, oldestIn_none hi, ih ha]
    | none, some q => rw [hi, ha] at h; simp at h
    | some q, none => rw [hi, ha] at h; simp at h
    | some q, some q' =>
      rw [hi, ha] at h
      by_cases hlt : q'.lastUsed < q.lastUsed <;> simp [hlt] at h

theorem oldestAll_mem {m : WarmMap} {pc : PooledContainer}
    (h : oldestAll m = some pc) : pc ∈ warmAll m := by
  induction m generalizing pc with
  | nil => simp [oldestAll] at h
  | cons e t ih =>
    simp only [oldestAll] at h
    match hi : oldestIn e.2, ha : oldestAll t with
    | none, none => rw [hi, ha] at h; simp at h
    | none, some q =>
      rw [hi, ha] at h
      simp at h
      subst h
      simp [warmAll, ih ha]
    | some q, none =>
      rw [hi, ha] at h
      simp at h
      subst h
      simp [warmAll, oldestIn_mem hi]
    | some q, some q' =>
      rw [hi, ha] at h
      by_cases hlt : q'.lastUsed < q.lastUsed
      · simp [hlt] at h; subst h; simp [warmAll, ih ha]
      · simp [hlt] at h; subst h; simp [warmAll, oldestIn_mem hi]

theorem oldestAll_min {m : WarmMap} {pc : PooledContainer}
    (h : oldestAll m = some pc) : ∀ q ∈ warmAll m, pc.lastUsed ≤ q.lastUsed := by
  induction m generalizing pc with
  | nil => simp [oldestAll] at h
  | cons e t ih =>
    simp only [oldestAll] at h
    intro x hx
    simp only [warmAll, List.mem_append] at hx
    match hi : oldestIn e.2, ha : oldestAll t with
    | none, none => rw [hi, ha] at h; simp at h
    | none, some q =>
      rw [hi, ha] at h
      simp at h
      subst h
      rcases hx with hx | hx
      · rw [oldestIn_none hi] at hx; simp at hx
      · exact ih ha x hx
    | some q, none =>
      rw [hi, ha] at h
      simp at h
      subst h
      rcases hx with hx | hx
      · exact oldestIn_min hi x hx
      · rw [warmAll_eq_nil_of_oldestAll_none ha] at hx; simp at hx
    | some q, some q' =>
      rw [hi, ha] at h
      by_cases hlt : q'.lastUsed < q.lastUsed
      · simp [hlt] at h
        subst h
        rcases hx with hx | hx
        · exact Nat.le_trans (Nat.le_of_lt hlt) (oldestIn_min hi x hx)
        · exact ih ha x hx
      · simp [hlt] at h
        subst h
        rcases hx with hx | hx
        · exact oldestIn_min hi x hx
        · exact Nat.le_trans (Nat.le_of_not_lt hlt) (ih ha x hx)

theorem warmAll_eraseWarm_perm {m : WarmMap} {pc : PooledContainer}
    (h : pc ∈ warmAll m) :
    List.Perm (warmAll m) (pc :: warmAll (eraseWarm m pc)) := by
  induction m with
  | nil => simp [warmAll] at h
  | cons e t ih =>
    by_cases hin : pc ∈ e.2
    · simp only [eraseWarm, if_pos hin, warmAll]
      exact (List.perm_cons_erase hin).append_right (warmAll t)
    · have hmem : pc ∈ warmAll t := by
        simp only [warmAll, List.mem_append] at h
        tauto
      simp only [eraseWarm, if_neg hin, warmAll]
      exact ((ih hmem).append_left e.2).trans List.perm_middle

/-! ### Well-formedness machinery -/

/-- Shorthand: the IDs of a list of containers. -/
def ids (l : List PooledContainer) : List Nat :=
  l.map (fun pc => pc.id)

theorem ids_append (l₁ l₂ : List PooledContainer) : ids (l₁ ++ l₂) = ids l₁ ++ ids l₂ :=
  List.map_append _ l₁ l₂

theorem mem_ids_of_mem {pc : PooledContainer} {l : List PooledContainer}
    (h : pc ∈ l) : pc.id ∈ ids l :=
  List.mem_map_of_mem _ h

theorem perm_shuffle1 (A B C D E : List Nat) (x : Nat) :
    List.Perm (A ++ (B ++ C) ++ D ++ (E ++ [x])) (A ++ (B ++ x :: C) ++ D ++ E) := by
  have e1 : A ++ (B ++ C) ++ D ++ (E ++ [x]) =
      (A ++ B) ++ ((C ++ (D ++ E)) ++ [x]) := by simp [List.append_assoc]
  have e2 : A ++ (B ++ x :: C) ++ D ++ E =
      (A ++ B) ++ (x :: (C ++ (D ++ E))) := by simp [List.append_assoc]
  rw [e1, e2]
  exact (List.perm_append_singleton x _).append_left _

theorem perm_shuffle2 (A B C D : List Nat) (x : Nat) :
    List.Perm (A ++ (B ++ [x]) ++ C ++ D) (x :: (A ++ B ++ C ++ D)) := by
  have e1 : A ++ (B ++ [x]) ++ C ++ D = (A ++ B) ++ x :: (C ++ D) := by
    simp [List.append_assoc]
  have e2 : x :: (A ++ B ++ C ++ D) = x :: ((A ++ B) ++ (C ++ D)) := by
    simp [List.append_assoc]
  rw [e1, e2]
  exact List.perm_middle

theorem nodup_concat {L : List Nat} {x : Nat} (h : L.Nodup) (hx : x ∉ L) :
    (L ++ [x]).Nodup := by
  rw [List.nodup_append]
  refine ⟨h, List.nodup_singleton x, ?_⟩
  intro a ha hmem
  rw [List.mem_singleton] at hmem
  exact hx (hmem ▸ ha)

theorem filter_ne_id_eq {l : List PooledContainer} {i : Nat}
    (h : ∀ q ∈ l, q.id ≠ i) : l.filter (fun q => q.id != i) = l := by
  induction l with
  | nil => rfl
  | cons q t ih =>
    have hq : (q.id != i) = true := by
      simp only [bne_iff_ne]
      exact h q (List.mem_cons_self q t)
    simp [List.filter, hq, ih (fun a ha => h a (List.mem_cons_of_mem q ha))]

theorem ids_filter_ne (l : List PooledContainer) (i : Nat) :
    ids (l.filter (fun q => q.id != i)) = (ids l).filter (fun j => j != i) := by
  induction l with
  | nil => rfl
  | cons q t ih =>
    by_cases hq : q.id = i
    · simp [ids, List.filter, hq] at ih ⊢
      exact ih
    · have : (q.id != i) = true := by simpa [bne_iff_ne] using hq
      simp [ids, List.filter, this] at ih ⊢
      exact ih

theorem wf_of_sublist {p q : ContainerPool}
    (h : List.Sublist (poolIds q) (poolIds p)) (hn : p.nextId ≤ q.nextId)
    (hwf : WF p) : WF q := by
  refine ⟨hwf.1.sublist h, fun i hi => ?_⟩
  exact Nat.lt_of_lt_of_le (hwf.2 i (h.subset hi)) hn

theorem wf_perm {p q : ContainerPool}
    (h : List.Perm (poolIds q) (poolIds p)) (hn : p.nextId ≤ q.nextId)
    (hwf : WF p) : WF q := by
  refine ⟨h.symm.nodup hwf.1, fun i hi => ?_⟩
  exact Nat.lt_of_lt_of_le (hwf.2 i (h.subset hi)) hn

theorem ids_cons (q : PooledContainer) (l : List PooledContainer) :
    ids (q :: l) = q.id :: ids l := rfl

theorem wf_after_move {p : ContainerPool} (hwf : WF p)
    {u b c v : List PooledContainer} {q w : PooledContainer} {m' : WarmMap}
    (hW : warmAll p.warmContainers = u ++ (b ++ q :: c) ++ v)
    (hW' : warmAll m' = u ++ (b ++ c) ++ v)
    (hid : w.id = q.id) :
    WF { p with warmContainers := m',
                busyContainers := busyInsert p.busyContainers w } := by
  have hpcW : q.id ∈ ids (warmAll p.warmContainers) := by
    apply mem_ids_of_mem
    rw [hW]
    simp
  have hdisj : ∀ j ∈ ids (warmAll p.warmContainers), j ∉ ids p.busyContainers :=
    (List.nodup_append.mp hwf.1).2.2
  have hpcB : q.id ∉ ids p.busyContainers := hdisj _ hpcW
  have hins : busyInsert p.busyContainers w = p.busyContainers ++ [w] := by
    unfold busyInsert
    rw [filter_ne_id_eq]
    intro x hx
    rw [hid]
    intro hqe
    exact hpcB (hqe ▸ mem_ids_of_mem hx)
  have hperm : List.Perm
      (poolIds { p with warmContainers := m',
                        busyContainers := busyInsert p.busyContainers w })
      (poolIds p) := by
    show List.Perm (ids (warmAll m') ++ ids (busyInsert p.busyContainers w))
      (ids (warmAll p.warmContainers) ++ ids p.busyContainers)
    rw [hins, hW', hW]
    simp only [ids, List.map_append, List.map_cons, List.map_nil, hid]
    exact perm_shuffle1 _ _ _ _ _ _
  exact wf_perm hperm (Nat.le_refl _) hwf

theorem wf_fresh_busy {p : ContainerPool} (hwf : WF p) {pcN : PooledContainer}
    (hid : pcN.id = p.nextId) :
    WF { p with busyContainers := busyInsert p.busyContainers pcN,
                nextId := p.nextId + 1 } := by
  have hfresh : ∀ i ∈ poolIds p, i ≠ p.nextId := by
    intro i hi he
    exact absurd (hwf.2 i hi) (by rw [he]; exact Nat.lt_irrefl _)
  have hins : busyInsert p.busyContainers pcN = p.busyContainers ++ [pcN] := by
    unfold busyInsert
    rw [filter_ne_id_eq]
    intro q hq
    rw [hid]
    exact hfresh q.id (by
      show q.id ∈ poolIds p
      unfold poolIds
      exact List.mem_append_right _ (mem_ids_of_mem hq))
  constructor
  · show (ids (warmAll p.warmContainers) ++ ids (busyInsert p.busyContainers pcN)).Nodup
    rw [hins, ids_append]
    have : ids (warmAll p.warmContainers) ++ (ids p.busyContainers ++ ids [pcN]) =
        poolIds p ++ [pcN.id] := by
      unfold poolIds
      rw [List.append_assoc]
      rfl
    rw [this, hid]
    exact nodup_concat hwf.1 (fun hmem => hfresh _ hmem rfl)
  · intro i hi
    show i < p.nextId + 1
    have : poolIds { p with busyContainers := busyInsert p.busyContainers pcN,
                            nextId := p.nextId + 1 } = poolIds p ++ [pcN.id] := by
      show ids (warmAll p.warmContainers) ++ ids (busyInsert p.busyContainers pcN) =
        poolIds p ++ [pcN.id]
      rw [hins, ids_append]
      unfold poolIds
      rw [List.append_assoc]
      rfl
    rw [this] at hi
    rcases List.mem_append.mp hi with hi | hi
    · exact Nat.lt_succ_of_lt (hwf.2 i hi)
    · rw [List.mem_singleton] at hi
      rw [hi, hid]
      exact Nat.lt_succ_self _

theorem wf_GetContainer (p : ContainerPool) (now : Nat) (r a : String) (hwf : WF p) :
    WF (GetContainer p now r a).2 := by
  cases hfa : findSameAction (warmLookup p.warmContainers r) a with
  | some pr =>
    obtain ⟨pc, rest⟩ := pr
    obtain ⟨b, c, hcs, hrest, _, _⟩ := findSameAction_eq_some hfa
    obtain ⟨u, v, hm, hm'⟩ := warmAll_warmSet p.warmContainers r rest
    simp only [GetContainer, hfa]
    refine wf_after_move (u := u) (b := b) (c := c) (v := v) (q := pc) hwf ?_ ?_ rfl
    · rw [hm, hcs]
    · rw [hm', hrest]
  | none =>
    cases hl : (warmLookup p.warmContainers r).getLast? with
    | some pc =>
      have hcs := getLast?_split hl
      obtain ⟨u, v, hm, hm'⟩ :=
        warmAll_warmSet p.warmContainers r (warmLookup p.warmContainers r).dropLast
      simp only [GetContainer, hfa, hl]
      refine wf_after_move (u := u) (v := v) (q := pc)
        (b := (warmLookup p.warmContainers r).dropLast) (c := []) hwf ?_ ?_ rfl
      · rw [hm]
        conv_lhs => rw [hcs]
      · rw [hm']
        rw [List.append_nil]
    | none =>
      simp only [GetContainer, hfa, hl]
      exact wf_fresh_busy hwf rfl

theorem ids_singleton (q : PooledContainer) : ids [q] = [q.id] := rfl

theorem warmAll_addLast_perm (m : WarmMap) (r : String) (w : PooledContainer) :
    List.Perm (warmAll (warmSet m r (warmLookup m r ++ [w]))) (w :: warmAll m) := by
  obtain ⟨u, v, hm, hm'⟩ := warmAll_warmSet m r (warmLookup m r ++ [w])
  rw [hm', hm]
  have e1 : u ++ (warmLookup m r ++ [w]) ++ v = (u ++ warmLookup m r) ++ w :: v := by
    simp [List.append_assoc]
  have e2 : w :: (u ++ warmLookup m r ++ v) = w :: ((u ++ warmLookup m r) ++ v) := by
    simp [List.append_assoc]
  rw [e1, e2]
  exact List.perm_middle

theorem poolIds_addLast_perm (p : ContainerPool) (r : String) (w : PooledContainer) :
    List.Perm
      (ids (warmAll (warmSet p.warmContainers r (warmLookup p.warmContainers r ++ [w]))) ++
        ids p.busyContainers)
      (w.id :: poolIds p) := by
  have h1 := ((warmAll_addLast_perm p.warmContainers r w).map
    (fun pc => pc.id)).append_right (ids p.busyContainers)
  exact h1

theorem wf_add_warm_fresh {p : ContainerPool} (hwf : WF p) {w : PooledContainer}
    (hid : w.id = p.nextId) {r : String} :
    WF { p with
      warmContainers := warmSet p.warmContainers r (warmLookup p.warmContainers r ++ [w]),
      nextId := p.nextId + 1 } := by
  have hperm := poolIds_addLast_perm p r w
  constructor
  · apply hperm.symm.nodup
    rw [List.nodup_cons]
    refine ⟨?_, hwf.1⟩
    intro hmem
    exact absurd (hwf.2 _ hmem) (by rw [hid]; exact Nat.lt_irrefl _)
  · intro i hi
    show i < p.nextId + 1
    have hi2 : i ∈ w.id :: poolIds p := hperm.subset hi
    rcases List.mem_cons.mp hi2 with hi2 | hi2
    · rw [hi2, hid]; exact Nat.lt_succ_self _
    · exact Nat.lt_succ_of_lt (hwf.2 i hi2)

theorem wf_warmAdd {p : ContainerPool} (hwf : WF p) {w : PooledContainer} (now : Nat)
    (hnotin : w.id ∉ poolIds p) (hlt : w.id < p.nextId) :
    WF (warmAdd p w now) := by
  have hperm := poolIds_addLast_perm p w.runtime
    { w with state := PoolState.warm, lastUsed := now }
  constructor
  · apply hperm.symm.nodup
    rw [List.nodup_cons]
    exact ⟨hnotin, hwf.1⟩
  · intro i hi
    show i < p.nextId
    have hi2 := hperm.subset hi
    rcases List.mem_cons.mp hi2 with hi2 | hi2
    · rw [hi2]; exact hlt
    · exact hwf.2 i hi2

theorem wf_createStemCells (now : Nat) (r : String) (n : Nat) :
    ∀ (p : ContainerPool), WF p → WF (createStemCells p now r n) := by
  induction n with
  | zero => intro p hwf; exact hwf
  | succ k ih =>
    intro p hwf
    show WF (createStemCells _ now r k)
    exact ih _ (wf_add_warm_fresh hwf rfl)

theorem wf_prewarmLoop (now : Nat) (l : List (String × Nat)) :
    ∀ (p : ContainerPool), WF p → WF (prewarmLoop p now l) := by
  induction l with
  | nil => intro p hwf; exact hwf
  | cons e t ih =>
    intro p hwf
    exact ih _ (wf_createStemCells now e.1 _ p hwf)

theorem wf_PrewarmContainers (p : ContainerPool) (now : Nat) (hwf : WF p) :
    WF (PrewarmContainers p now) :=
  wf_prewarmLoop now p.prewarmConfig p hwf

theorem dropStems_sublist (cs : List PooledContainer) (k : Nat) :
    List.Sublist (dropStems cs k) cs := by
  induction cs generalizing k with
  | nil => cases k <;> exact List.Sublist.refl []
  | cons pc t ih =>
    cases k with
    | zero => exact (ih 0).cons₂ pc
    | succ j =>
      by_cases hc : pc.state = PoolState.warm ∧ pc.initializedAction = ""
      · simp only [dropStems, if_pos hc]
        exact (ih j).cons pc
      · simp only [dropStems, if_neg hc]
        exact (ih (Nat.succ j)).cons₂ pc

theorem warmAll_map_filter_sublist (m : WarmMap) (f : PooledContainer → Bool) :
    List.Sublist (warmAll (m.map (fun e => (e.1, e.2.filter f)))) (warmAll m) := by
  induction m with
  | nil => exact List.Sublist.refl []
  | cons e t ih =>
    show List.Sublist (e.2.filter f ++ _) (e.2 ++ _)
    exact (List.filter_sublist e.2).append ih

theorem wf_ScalePool (p : ContainerPool) (now : Nat) (r : String) (d : Int)
    (hwf : WF p) : WF (ScalePool p now r d) := by
  by_cases h1 : 0 < d
  · simp only [ScalePool, if_pos h1]
    exact wf_createStemCells now r _ p hwf
  · by_cases h2 : d < 0
    · simp only [ScalePool, if_neg h1, if_pos h2]
      obtain ⟨u, v, hm, hm'⟩ := warmAll_warmSet p.warmContainers r
        (dropStems (warmLookup p.warmContainers r) (-d).toNat)
      refine wf_of_sublist (p := p) ?_ (Nat.le_refl _) hwf
      show List.Sublist (ids (warmAll (warmSet _ _ _)) ++ ids p.busyContainers)
        (ids (warmAll p.warmContainers) ++ ids p.busyContainers)
      rw [hm', hm]
      refine List.Sublist.append ?_ (List.Sublist.refl _)
      rw [ids_append, ids_append, ids_append, ids_append]
      refine List.Sublist.append (List.Sublist.append (List.Sublist.refl _) ?_)
        (List.Sublist.refl _)
      exact (dropStems_sublist _ _).map _
    · simp only [ScalePool, if_neg h1, if_neg h2]
      exact hwf

theorem wf_CleanupIdleContainers (p : ContainerPool) (now maxIdle : Nat)
    (hwf : WF p) : WF (CleanupIdleContainers p now maxIdle) := by
  refine wf_of_sublist (p := p) ?_ (Nat.le_refl _) hwf
  show List.Sublist (ids (warmAll (p.warmContainers.map _)) ++ ids p.busyContainers)
    (ids (warmAll p.warmContainers) ++ ids p.busyContainers)
  refine List.Sublist.append ?_ (List.Sublist.refl _)
  exact (warmAll_map_filter_sublist p.warmContainers _).map _

theorem wf_Shutdown (p : ContainerPool) : WF (Shutdown p) := by
  constructor
  · show (ids (warmAll ([] : WarmMap)) ++ ids []).Nodup
    exact List.nodup_nil
  · intro i hi
    simp [poolIds, Shutdown, warmAll, ids] at hi

theorem removeOldest_eq_some {m : WarmMap} {w : PooledContainer} {m' : WarmMap}
    (h : removeOldest m = some (w, m')) :
    oldestAll m = some w ∧ m' = eraseWarm m w := by
  unfold removeOldest at h
  cases ho : oldestAll m with
  | none => rw [ho] at h; simp at h
  | some x =>
    rw [ho] at h
    simp at h
    exact ⟨by rw [h.1], by rw [← h.1, ← h.2]⟩

theorem wf_eraseWarm {p : ContainerPool} (hwf : WF p) {w : PooledContainer}
    (hmem : w ∈ warmAll p.warmContainers) :
    WF { p with warmContainers := eraseWarm p.warmContainers w } := by
  have hperm := (warmAll_eraseWarm_perm hmem).map (fun pc => pc.id)
  have hperm2 : List.Perm (poolIds p)
      (w.id :: poolIds { p with warmContainers := eraseWarm p.warmContainers w }) :=
    hperm.append_right (ids p.busyContainers)
  constructor
  · exact (List.nodup_cons.mp (hperm2.nodup hwf.1)).2
  · intro i hi
    exact hwf.2 i (hperm2.symm.subset (List.mem_cons_of_mem _ hi))

theorem wf_ReturnContainer (p : ContainerPool) (now cid : Nat) (reuse : Bool)
    {q : ContainerPool} (h : ReturnContainer p now cid reuse = some q) (hwf : WF p) :
    WF q := by
  cases hf : p.busyContainers.find? (fun x => x.id == cid) with
  | none =>
    simp only [ReturnContainer, hf] at h
    exact Option.noConfusion h
  | some pc =>
    have hpcmem : pc ∈ p.busyContainers := List.mem_of_find?_eq_some hf
    have hpcid : pc.id = cid := by
      have := List.find?_some hf
      simpa using this
    have hsub1 : List.Sublist
        (poolIds { p with busyContainers := p.busyContainers.filter (fun x => x.id != cid) })
        (poolIds p) :=
      List.Sublist.append (List.Sublist.refl _) ((List.filter_sublist _).map _)
    have hwf1 : WF { p with busyContainers := p.busyContainers.filter (fun x => x.id != cid) } :=
      wf_of_sublist (p := p) hsub1 (Nat.le_refl _) hwf
    have hfresh : pc.id ∉
        poolIds { p with busyContainers := p.busyContainers.filter (fun x => x.id != cid) } := by
      intro hmem
      rcases List.mem_append.mp hmem with hm1 | hm1
      · have hdisj := (List.nodup_append.mp hwf.1).2.2
        exact hdisj hm1 (mem_ids_of_mem hpcmem)
      · obtain ⟨x, hx, hxe⟩ := List.mem_map.mp hm1
        have hne := (List.mem_filter.mp hx).2
        rw [bne_iff_ne] at hne
        exact hne (by rw [hxe, hpcid])
    have hlt : pc.id < p.nextId :=
      hwf.2 pc.id (List.mem_append_right _ (mem_ids_of_mem hpcmem))
    by_cases hr : reuse = false
    · simp only [ReturnContainer, hf, if_pos hr] at h
      rw [← Option.some.inj h]
      exact hwf1
    · by_cases hfull :
        warmTotal p.warmContainers ≥ p.maxPoolSize
      · cases hro : removeOldest p.warmContainers with
        | none =>
          simp only [ReturnContainer, hf, if_neg hr, if_pos hfull, hro] at h
          rw [← Option.some.inj h]
          exact hwf1
        | some pr =>
          obtain ⟨w, m'⟩ := pr
          obtain ⟨ho, hm'⟩ := removeOldest_eq_some hro
          simp only [ReturnContainer, hf, if_neg hr, if_pos hfull, hro] at h
          have hwmem : w ∈ warmAll p.warmContainers := oldestAll_mem ho
          have hwf2 : WF { p with
              busyContainers := p.busyContainers.filter (fun x => x.id != cid),
              warmContainers := eraseWarm p.warmContainers w } :=
            wf_eraseWarm hwf1 hwmem
          have hfresh2 : pc.id ∉ poolIds { p with
              busyContainers := p.busyContainers.filter (fun x => x.id != cid),
              warmContainers := eraseWarm p.warmContainers w } := by
            intro hmem
            apply hfresh
            have hperm := ((warmAll_eraseWarm_perm hwmem).map
              (fun pc => pc.id)).append_right
              (ids (p.busyContainers.filter (fun x => x.id != cid)))
            exact hperm.symm.subset (List.mem_cons_of_mem _ hmem)
          subst hm'
          rw [← Option.some.inj h]
          exact wf_warmAdd hwf2 now hfresh2 hlt
      · simp only [ReturnContainer, hf, if_neg hr, if_neg hfull] at h
        rw [← Option.some.inj h]
        exact wf_warmAdd hwf1 now hfresh hlt

/-! ### Warm-count lemmas -/

theorem warmTotal_warmAdd (p : ContainerPool) (w : PooledContainer) (now : Nat) :
    warmTotal (warmAdd p w now).warmContainers = warmTotal p.warmContainers + 1 := by
  have h := (warmAll_addLast_perm p.warmContainers w.runtime
    { w with state := PoolState.warm, lastUsed := now }).length_eq
  simpa [warmTotal] using h

theorem warmTotal_eraseWarm {m : WarmMap} {w : PooledContainer}
    (hmem : w ∈ warmAll m) :
    warmTotal m = warmTotal (eraseWarm m w) + 1 := by
  have h := (warmAll_eraseWarm_perm hmem).length_eq
  simpa [warmTotal, Nat.add_comm] using h

theorem warmTotal_GetContainer_le (p : ContainerPool) (now : Nat) (r a : String) :
    warmTotal (GetContainer p now r a).2.warmContainers ≤ warmTotal p.warmContainers := by
  cases hfa : findSameAction (warmLookup p.warmContainers r) a with
  | some pr =>
    obtain ⟨pc, rest⟩ := pr
    obtain ⟨b, c, hcs, hrest, _, _⟩ := findSameAction_eq_some hfa
    obtain ⟨u, v, hm, hm'⟩ := warmAll_warmSet p.warmContainers r rest
    simp only [GetContainer, hfa]
    show warmTotal (warmSet p.warmContainers r rest) ≤ warmTotal p.warmContainers
    unfold warmTotal
    rw [hm', hm, hcs, hrest]
    simp [List.length_append]
  | none =>
    cases hl : (warmLookup p.warmContainers r).getLast? with
    | some pc =>
      have hcs := getLast?_split hl
      obtain ⟨u, v, hm, hm'⟩ :=
        warmAll_warmSet p.warmContainers r (warmLookup p.warmContainers r).dropLast
      simp only [GetContainer, hfa, hl]
      show warmTotal (warmSet p.warmContainers r _) ≤ warmTotal p.warmContainers
      unfold warmTotal
      rw [hm', hm]
      conv_rhs => rw [hcs]
      simp [List.length_append]
    | none =>
      simp only [GetContainer, hfa, hl]
      exact Nat.le_refl _

theorem warmTotal_ReturnContainer_le (p : ContainerPool) (now cid : Nat) (reuse : Bool)
    {q : ContainerPool} (h : ReturnContainer p now cid reuse = some q)
    (hb : warmTotal p.warmContainers ≤ p.maxPoolSize) :
    warmTotal q.warmContainers ≤ p.maxPoolSize := by
  cases hf : p.busyContainers.find? (fun x => x.id == cid) with
  | none =>
    simp only [ReturnContainer, hf] at h
    exact Option.noConfusion h
  | some pc =>
    by_cases hr : reuse = false
    · simp only [ReturnContainer, hf, if_pos hr] at h
      rw [← Option.some.inj h]
      exact hb
    · by_cases hfull : warmTotal p.warmContainers ≥ p.maxPoolSize
      · cases hro : removeOldest p.warmContainers with
        | none =>
          simp only [ReturnContainer, hf, if_neg hr, if_pos hfull, hro] at h
          rw [← Option.some.inj h]
          exact hb
        | some pr =>
          obtain ⟨w, m'⟩ := pr
          obtain ⟨ho, hm'⟩ := removeOldest_eq_some hro
          subst hm'
          simp only [ReturnContainer, hf, if_neg hr, if_pos hfull, hro] at h
          rw [← Option.some.inj h]
          rw [warmTotal_warmAdd]
          show warmTotal (eraseWarm p.warmContainers w) + 1 ≤ p.maxPoolSize
          rw [← warmTotal_eraseWarm (oldestAll_mem ho)]
          exact hb
      · simp only [ReturnContainer, hf, if_neg hr, if_neg hfull] at h
        rw [← Option.some.inj h]
        rw [warmTotal_warmAdd]
        show warmTotal p.warmContainers + 1 ≤ p.maxPoolSize
        omega

theorem warmTotal_Cleanup_le (p : ContainerPool) (now maxIdle : Nat) :
    warmTotal (CleanupIdleContainers p now maxIdle).warmContainers ≤
      warmTotal p.warmContainers :=
  (warmAll_map_filter_sublist p.warmContainers _).length_le

theorem warmTotal_Shutdown (p : ContainerPool) :
    warmTotal (Shutdown p).warmContainers = 0 := rfl

theorem warmBusyDisjoint_of_wf {p : ContainerPool} (hwf : WF p) : WarmBusyDisjoint p := by
  intro a ha b hb he
  have hdisj := (List.nodup_append.mp hwf.1).2.2
  exact hdisj (mem_ids_of_mem ha) (he ▸ mem_ids_of_mem hb)

/-! ### Prewarm watermark lemmas -/

theorem stemCount_append_stem (cs : List PooledContainer) (w : PooledContainer)
    (hw : w.initializedAction = "") : stemCount (cs ++ [w]) = stemCount cs + 1 := by
  unfold stemCount
  rw [List.filter_append]
  simp [List.filter, hw]

theorem createStemCells_lookup_self (now : Nat) (r : String) (n : Nat) :
    ∀ p : ContainerPool,
      stemCount (warmLookup (createStemCells p now r n).warmContainers r) =
        stemCount (warmLookup p.warmContainers r) + n := by
  induction n with
  | zero => intro p; rfl
  | succ k ih =>
    intro p
    show stemCount (warmLookup (createStemCells _ now r k).warmContainers r) = _
    rw [ih]
    rw [warmLookup_warmSet_self]
    rw [stemCount_append_stem _ _ rfl]
    omega

theorem createStemCells_lookup_other (now : Nat) (r k : String) (hk : k ≠ r) (n : Nat) :
    ∀ p : ContainerPool,
      warmLookup (createStemCells p now r n).warmContainers k =
        warmLookup p.warmContainers k := by
  induction n with
  | zero => intro p; rfl
  | succ j ih =>
    intro p
    show warmLookup (createStemCells _ now r j).warmContainers k = _
    rw [ih]
    exact warmLookup_warmSet_ne _ _ _ _ hk

theorem createStemCells_config (now : Nat) (r : String) (n : Nat) :
    ∀ p : ContainerPool, (createStemCells p now r n).prewarmConfig = p.prewarmConfig := by
  induction n with
  | zero => intro p; rfl
  | succ j ih => intro p; exact ih _

theorem prewarmOne_stemCount_self (p : ContainerPool) (now : Nat) (r : String) (n : Nat) :
    stemCount (warmLookup (prewarmOne p now r n).warmContainers r) =
      max (stemCount (warmLookup p.warmContainers r)) n := by
  unfold prewarmOne
  rw [createStemCells_lookup_self]
  omega

theorem prewarmOne_stemCount_mono (p : ContainerPool) (now : Nat) (r : String) (n : Nat)
    (k : String) :
    stemCount (warmLookup p.warmContainers k) ≤
      stemCount (warmLookup (prewarmOne p now r n).warmContainers k) := by
  by_cases hk : k = r
  · subst hk
    rw [prewarmOne_stemCount_self]
    omega
  · unfold prewarmOne
    rw [createStemCells_lookup_other now r k hk]

theorem prewarmOne_id_of_ge (p : ContainerPool) (now : Nat) (r : String) (n : Nat)
    (hge : n ≤ stemCount (warmLookup p.warmContainers r)) :
    prewarmOne p now r n = p := by
  unfold prewarmOne
  rw [Nat.sub_eq_zero_of_le hge]
  rfl

theorem prewarmOne_config (p : ContainerPool) (now : Nat) (r : String) (n : Nat) :
    (prewarmOne p now r n).prewarmConfig = p.prewarmConfig :=
  createStemCells_config now r _ p

theorem prewarmLoop_stemCount_mono (now : Nat) (l : List (String × Nat)) :
    ∀ (p : ContainerPool) (k : String),
      stemCount (warmLookup p.warmContainers k) ≤
        stemCount (warmLookup (prewarmLoop p now l).warmContainers k) := by
  induction l with
  | nil => intro p k; exact Nat.le_refl _
  | cons e t ih =>
    intro p k
    exact Nat.le_trans (prewarmOne_stemCount_mono p now e.1 e.2 k) (ih _ k)

theorem prewarmLoop_watermark (now : Nat) (l : List (String × Nat)) :
    ∀ p : ContainerPool, ∀ e ∈ l,
      e.2 ≤ stemCount (warmLookup (prewarmLoop p now l).warmContainers e.1) := by
  induction l with
  | nil => intro p e he; simp at he
  | cons f t ih =>
    intro p e he
    rcases List.mem_cons.mp he with he | he
    · subst he
      show e.2 ≤ stemCount (warmLookup (prewarmLoop (prewarmOne p now e.1 e.2) now t).warmContainers e.1)
      refine Nat.le_trans ?_ (prewarmLoop_stemCount_mono now t _ e.1)
      rw [prewarmOne_stemCount_self]
      omega
    · exact ih _ e he

theorem prewarmLoop_config (now : Nat) (l : List (String × Nat)) :
    ∀ p : ContainerPool, (prewarmLoop p now l).prewarmConfig = p.prewarmConfig := by
  induction l with
  | nil => intro p; rfl
  | cons f t ih =>
    intro p
    rw [show prewarmLoop p now (f :: t) = prewarmLoop (prewarmOne p now f.1 f.2) now t from rfl]
    rw [ih, prewarmOne_config]

theorem prewarmLoop_id (now : Nat) (l : List (String × Nat)) :
    ∀ p : ContainerPool,
      (∀ e ∈ l, e.2 ≤ stemCount (warmLookup p.warmContainers e.1)) →
      prewarmLoop p now l = p := by
  induction l with
  | nil => intro p _; rfl
  | cons f t ih =>
    intro p hall
    show prewarmLoop (prewarmOne p now f.1 f.2) now t = p
    rw [prewarmOne_id_of_ge p now f.1 f.2 (hall f (List.mem_cons_self f t))]
    exact ih p (fun e he => hall e (List.mem_cons_of_mem f he))

end Pool

namespace Logs

theorem isPre_iff (n : List Char) : ∀ h, isPre n h = true ↔ ∃ r, h = n ++ r := by
  induction n with
  | nil =>
    intro h
    simp [isPre]
  | cons a as ih =>
    intro h
    cases h with
    | nil =>
      simp only [isPre]
      constructor
      · intro hf
        exact absurd hf (by simp)
      · rintro ⟨r, hr⟩
        exact absurd hr (by simp)
    | cons b bs =>
      simp only [isPre, Bool.and_eq_true, beq_iff_eq]
      constructor
      · rintro ⟨hab, hpre⟩
        obtain ⟨r, hr⟩ := (ih bs).mp hpre
        subst hab
        exact ⟨r, by rw [hr]; rfl⟩
      · rintro ⟨r, hr⟩
        rw [List.cons_append] at hr
        injection hr with h1 h2
        subst h1
        exact ⟨rfl, (ih bs).mpr ⟨r, h2⟩⟩

theorem containsSub_iff (n : List Char) (hn : n ≠ []) :
    ∀ h, containsSub n h = true ↔ Occurs n h := by
  intro h
  induction h with
  | nil =>
    simp only [containsSub, List.isEmpty_iff]
    constructor
    · intro he
      exact absurd he hn
    · rintro ⟨l, r, hr⟩
      exfalso
      cases n with
      | nil => exact hn rfl
      | cons x xs =>
        have := congrArg List.length hr
        simp at this
        omega
  | cons c rest ih =>
    simp only [containsSub, Bool.or_eq_true]
    constructor
    · rintro (hp | hc)
      · obtain ⟨r, hr⟩ := (isPre_iff n _).mp hp
        exact ⟨[], r, by rw [hr]; rfl⟩
      · obtain ⟨l, r, hr⟩ := ih.mp hc
        exact ⟨c :: l, r, by rw [List.cons_append, List.cons_append, ← hr]⟩
    · rintro ⟨l, r, hr⟩
      cases l with
      | nil =>
        left
        refine (isPre_iff n _).mpr ⟨r, ?_⟩
        simpa using hr
      | cons x xs =>
        right
        apply ih.mpr
        rw [List.cons_append, List.cons_append] at hr
        injection hr with h1 h2
        exact ⟨xs, r, h2⟩

instance decOccurs (n h : List Char) : Decidable (Occurs n h) :=
  if hn : n = [] then
    Decidable.isTrue ⟨[], h, by simp [hn]⟩
  else
    decidable_of_iff (containsSub n h = true) (containsSub_iff n hn h)

theorem occurs_split {m : List Char} (a : List Char) (c : Char) (b : List Char)
    (hm : m ≠ []) (hc : c ∉ m) (h : Occurs m (a ++ c :: b)) :
    Occurs m a ∨ Occurs m b := by
  obtain ⟨l, r, hr⟩ := h
  rw [List.append_assoc] at hr
  rcases List.append_eq_append_iff.mp hr with ⟨e, he1, he2⟩ | ⟨e, he1, he2⟩
  · cases e with
    | nil =>
      exfalso
      rw [List.nil_append] at he2
      cases m with
      | nil => exact hm rfl
      | cons m0 mt =>
        rw [List.cons_append] at he2
        injection he2 with h1 _
        exact hc (h1 ▸ List.mem_cons_self m0 mt)
    | cons e0 et =>
      rw [List.cons_append] at he2
      injection he2 with h1 h2
      right
      rw [← List.append_assoc] at h2
      exact ⟨et, r, h2⟩
  · rcases List.append_eq_append_iff.mp he2 with ⟨g, hg1, hg2⟩ | ⟨g, hg1, hg2⟩
    · left
      rw [hg1, ← List.append_assoc] at he1
      exact ⟨l, g, he1⟩
    · cases g with
      | nil =>
        left
        rw [List.append_nil] at hg1
        exact ⟨l, [], by rw [List.append_nil, he1, hg1]⟩
      | cons g0 gt =>
        exfalso
        rw [List.cons_append] at hg2
        injection hg2 with h1 _
        apply hc
        rw [hg1, h1]
        exact List.mem_append_right e (List.mem_cons_self g0 gt)

theorem parseLogLine_stream {tsParse : List Char → Option Nat} {line : List Char}
    {streamType : Nat} {ll : LogLine}
    (h : parseLogLine tsParse line streamType = some ll) :
    ll.stream = "stdout".data ∨ ll.stream = "stderr".data := by
  cases hs : splitFirstSpace (trimSpace line) with
  | none =>
    simp only [parseLogLine, hs] at h
    exact Option.noConfusion h
  | some pr =>
    obtain ⟨tsStr, msg⟩ := pr
    cases ht : tsParse tsStr with
    | none =>
      simp only [parseLogLine, hs, ht] at h
      exact Option.noConfusion h
    | some t =>
      simp only [parseLogLine, hs, ht, Option.some.injEq] at h
      subst h
      by_cases h2 : streamType = 2
      · right; simp [h2]
      · left; simp [h2]

theorem parseLogs_stream (tsParse : List Char → Option Nat) (fs : List Frame) :
    ∀ ll ∈ parseLogs tsParse fs,
      ll.stream = "stdout".data ∨ ll.stream = "stderr".data := by
  induction fs with
  | nil =>
    intro ll h
    simp [parseLogs] at h
  | cons f rest ih =>
    intro ll h
    cases hp : parseLogLine tsParse f.payload f.streamType with
    | none =>
      simp only [parseLogs, hp] at h
      exact ih ll h
    | some l0 =>
      simp only [parseLogs, hp] at h
      have hstream := parseLogLine_stream hp
      by_cases hmk : containsSub logMarker l0.message = true
      · rw [if_pos hmk] at h
        rw [List.mem_singleton] at h
        subst h
        exact hstream
      · rw [if_neg hmk] at h
        rcases List.mem_cons.mp h with h | h
        · subst h
          exact hstream
        · exact ih ll h

theorem parseLogs_cutoff (tsParse : List Char → Option Nat) (fs1 : List Frame)
    (f : Frame) (fs2 : List Frame)
    (hok : ∀ g ∈ fs1, markerFrame tsParse g = false)
    (hf : markerFrame tsParse f = true) :
    parseLogs tsParse (fs1 ++ f :: fs2) = parseLogs tsParse (fs1 ++ [f]) := by
  induction fs1 with
  | nil =>
    simp only [List.nil_append]
    cases hp : parseLogLine tsParse f.payload f.streamType with
    | none =>
      simp only [markerFrame, hp] at hf
      exact Bool.noConfusion hf
    | some ll =>
      have hf2 : containsSub logMarker ll.message = true := by
        simpa [markerFrame, hp] using hf
      simp only [parseLogs, hp]
      rw [if_pos hf2, if_pos hf2]
  | cons g gs ih =>
    have hg0 := hok g (List.mem_cons_self g gs)
    simp only [List.cons_append]
    cases hp : parseLogLine tsParse g.payload g.streamType with
    | none =>
      simp only [parseLogs, hp]
      exact ih (fun x hx => hok x (List.mem_cons_of_mem g hx))
    | some ll =>
      have hg : containsSub logMarker ll.message = false := by
        simpa [markerFrame, hp] using hg0
      simp only [parseLogs, hp]
      rw [if_neg (by simp [hg]), if_neg (by simp [hg])]
      rw [ih (fun x hx => hok x (List.mem_cons_of_mem g hx))]

theorem formatLogs_marker_free (tsParse : List Char → Option Nat)
    (fmtTs : Nat → List Char) (fs : List Frame)
    (hfmt : ∀ t, ¬ Occurs logMarker (fmtTs t)) :
    ∀ line ∈ FormatLogs fmtTs (parseLogs tsParse fs), ¬ Occurs logMarker line := by
  intro line hline hocc
  unfold FormatLogs at hline
  obtain ⟨ll, hmem, hfmt_eq⟩ := List.mem_map.mp hline
  have hfl := List.mem_filter.mp hmem
  have hmsg : containsSub logMarker ll.message = false := by
    have h2 := hfl.2
    simpa using h2
  have hstream := parseLogs_stream tsParse fs ll hfl.1
  subst hfmt_eq
  unfold formatLine at hocc
  have hm_ne : logMarker ≠ [] := by decide
  have hm_sp : ' ' ∉ logMarker := by decide
  rcases occurs_split (fmtTs ll.timestamp) ' ' (ll.stream ++ ':' :: ' ' :: ll.message)
      hm_ne hm_sp hocc with h1 | h1
  · exact hfmt _ h1
  · have he : ll.stream ++ ':' :: ' ' :: ll.message =
        (ll.stream ++ [':']) ++ ' ' :: ll.message := by
      simp
    rw [he] at h1
    rcases occurs_split (ll.stream ++ [':']) ' ' ll.message hm_ne hm_sp h1 with h2 | h2
    · rcases hstream with hs | hs <;> rw [hs] at h2
      · exact absurd h2 (by decide)
      · exact absurd h2 (by decide)
    · rw [← containsSub_iff logMarker hm_ne ll.message] at h2
      rw [hmsg] at h2
      exact absurd h2 (by simp)

end Logs

open Pool in
/-- C1, corrected.  The claim fails on the code: `GetContainer`'s second
branch (pool.go lines 104-117) hands out ANY warm container of the
matching runtime — not only a stem cell — and overwrites its
`InitializedAction` with the new action at line 113.  Amended statement:
when no warm container matches the requested action and the runtime's
warm slice is nonempty, the most recently used warm container is
returned marked busy with `initialized_action` overwritten to the
requested action, regardless of its previous (possibly nonempty and
different) value. -/
theorem claim_C1 (p : ContainerPool) (now : Nat) (r a : String)
    (pc : PooledContainer)
    (hnone : findSameAction (warmLookup p.warmContainers r) a = none)
    (hlast : (warmLookup p.warmContainers r).getLast? = some pc) :
    (GetContainer p now r a).1 =
      { pc with state := PoolState.busy, lastUsed := now, initializedAction := a } := by
  simp only [GetContainer, hnone, hlast]

open Pool in
/-- C1 counterexample: a pool whose only warm `nodejs20` container has
`initialized_action = "A"` (a nonempty value).  `GetContainer` for action
`"B"` re-issues that very container (same ID) and its
`initialized_action` changes from `"A"` to `"B"`, refuting both that a
sandbox needing `/init` is only a stem cell and that a nonempty
`initialized_action` never changes. -/
theorem claim_C1_counterexample :
    warmAll cex1Pool.warmContainers =
      [{ id := 1, runtime := "nodejs20", state := PoolState.warm, lastUsed := 0,
         initializedAction := "A" }] ∧
    "A" ≠ "" ∧ "A" ≠ "B" ∧
    (GetContainer cex1Pool 7 "nodejs20" "B").1.id = 1 ∧
    (GetContainer cex1Pool 7 "nodejs20" "B").1.initializedAction = "B" := by
  decide

open Pool in
/-- C1 witness: the amended theorem applied to the concrete pool. -/
theorem claim_C1_witness :
    (GetContainer cex1Pool 7 "nodejs20" "B").1 =
      { id := 1, runtime := "nodejs20", state := PoolState.busy, lastUsed := 7,
        initializedAction := "B" } :=
  claim_C1 cex1Pool 7 "nodejs20" "B" ⟨1, "nodejs20", PoolState.warm, 0, "A"⟩
    (by decide) (by decide)

open Pool in
/-- C10, confirmed.  `PrewarmContainers` is idempotent: running it twice
(at any two times) leaves exactly the pool state of running it once, and
after one run every configured runtime holds at least its configured
number of stem cells (the count is a watermark; the second run creates
nothing, as witnessed by the state equality, which in particular pins the
fresh-ID counter). -/
theorem claim_C10 (p : ContainerPool) (now now2 : Nat) :
    PrewarmContainers (PrewarmContainers p now) now2 = PrewarmContainers p now ∧
    ∀ e ∈ p.prewarmConfig,
      e.2 ≤ stemCount (warmLookup (PrewarmContainers p now).warmContainers e.1) := by
  constructor
  · show prewarmLoop _ now2 (PrewarmContainers p now).prewarmConfig = _
    rw [show (PrewarmContainers p now).prewarmConfig = p.prewarmConfig from
      prewarmLoop_config now p.prewarmConfig p]
    exact prewarmLoop_id now2 p.prewarmConfig _ (prewarmLoop_watermark now p.prewarmConfig p)
  · exact prewarmLoop_watermark now p.prewarmConfig p

open Pool in
/-- C10 witness: prewarming a fresh pool configured with two `go123` stem
cells twice equals prewarming it once, and leaves at least two stem
cells. -/
theorem claim_C10_witness :
    PrewarmContainers (PrewarmContainers (NewContainerPool [("go123", 2)] 10) 1) 5 =
      PrewarmContainers (NewContainerPool [("go123", 2)] 10) 1 ∧
    2 ≤ stemCount (warmLookup
      (PrewarmContainers (NewContainerPool [("go123", 2)] 10) 1).warmContainers "go123") :=
  ⟨(claim_C10 (NewContainerPool [("go123", 2)] 10) 1 5).1,
   (claim_C10 (NewContainerPool [("go123", 2)] 10) 1 5).2 ("go123", 2) (by decide)⟩

open Pool in
/-- C6, corrected.  The claim as stated fails only in the corner where no
Warm sandbox exists to evict (possible exactly when `max_pool_size = 0`):
there `ReturnContainer` destroys the released container instead of
inserting it (pool.go lines 164-172).  Amended statement: whenever the
busy container is found, the pool is full, and the LRU scan finds a
victim (guaranteed when `max_pool_size ≥ 1`), the victim is a Warm
container with globally minimal `last_used`, it is evicted, the released
container is re-inserted as Warm with `last_used = now`, and in both
reuse modes the Busy entry is cleared. -/
theorem claim_C6 (p : ContainerPool) (now cid : Nat)
    (pc w : PooledContainer)
    (hf : p.busyContainers.find? (fun x => x.id == cid) = some pc)
    (hfull : warmTotal p.warmContainers ≥ p.maxPoolSize)
    (ho : oldestAll p.warmContainers = some w) :
    w ∈ warmAll p.warmContainers ∧
    (∀ x ∈ warmAll p.warmContainers, w.lastUsed ≤ x.lastUsed) ∧
    ReturnContainer p now cid true =
      some (warmAdd
        { p with
          warmContainers := eraseWarm p.warmContainers w,
          busyContainers := p.busyContainers.filter (fun x => x.id != cid) } pc now) ∧
    ({ pc with state := PoolState.warm, lastUsed := now } : PooledContainer) ∈
      warmAll ((ReturnContainer p now cid true).getD p).warmContainers ∧
    ((ReturnContainer p now cid true).getD p).busyContainers =
      p.busyContainers.filter (fun x => x.id != cid) ∧
    ((ReturnContainer p now cid false).getD p).busyContainers =
      p.busyContainers.filter (fun x => x.id != cid) := by
  have hmem := oldestAll_mem ho
  have hmin := oldestAll_min ho
  have hro : removeOldest p.warmContainers = some (w, eraseWarm p.warmContainers w) := by
    unfold removeOldest
    rw [ho]
  have hret : ReturnContainer p now cid true =
      some (warmAdd
        { p with
          warmContainers := eraseWarm p.warmContainers w,
          busyContainers := p.busyContainers.filter (fun x => x.id != cid) } pc now) := by
    simp only [ReturnContainer, hf, hro]
    rw [if_neg (by decide), if_pos hfull]
  refine ⟨hmem, hmin, hret, ?_, ?_, ?_⟩
  · rw [hret]
    simp only [Option.getD_some]
    exact (warmAll_addLast_perm _ _ _).symm.subset (List.mem_cons_self _ _)
  · rw [hret]
    rfl
  · have hfa : ReturnContainer p now cid false =
        some { p with busyContainers := p.busyContainers.filter (fun x => x.id != cid) } := by
      simp only [ReturnContainer, hf]
      rw [if_pos trivial]
    rw [hfa]
    rfl

open Pool in
/-- C6 counterexample: with `max_pool_size = 0`, an empty Warm set and one
Busy container, releasing with reuse = true finds no LRU victim and
destroys the container: nothing is inserted as Warm, although adding it
would have exceeded the bound (0 + 1 > 0), refuting the claim that the
released sandbox is always inserted after an eviction. -/
theorem claim_C6_counterexample :
    warmTotal cex6Pool.warmContainers + 1 > cex6Pool.maxPoolSize ∧
    ReturnContainer cex6Pool 5 7 true = some { cex6Pool with busyContainers := [] } ∧
    warmAll ((ReturnContainer cex6Pool 5 7 true).getD cex6Pool).warmContainers = [] := by
  decide

open Pool in
/-- C6 witness: the amended theorem applied to a full two-runtime pool;
the LRU victim is the `"m"` container with `last_used = 4`. -/
theorem claim_C6_witness :
    (⟨2, "m", PoolState.warm, 4, "B"⟩ : PooledContainer) ∈ warmAll wit6Pool.warmContainers ∧
    (∀ x ∈ warmAll wit6Pool.warmContainers,
      (⟨2, "m", PoolState.warm, 4, "B"⟩ : PooledContainer).lastUsed ≤ x.lastUsed) ∧
    ReturnContainer wit6Pool 20 3 true =
      some (warmAdd
        { wit6Pool with
          warmContainers := eraseWarm wit6Pool.warmContainers ⟨2, "m", PoolState.warm, 4, "B"⟩,
          busyContainers := wit6Pool.busyContainers.filter (fun x => x.id != 3) }
        ⟨3, "n", PoolState.busy, 12, "C"⟩ 20) ∧
    ({ (⟨3, "n", PoolState.busy, 12, "C"⟩ : PooledContainer) with
        state := PoolState.warm, lastUsed := 20 } : PooledContainer) ∈
      warmAll ((ReturnContainer wit6Pool 20 3 true).getD wit6Pool).warmContainers ∧
    ((ReturnContainer wit6Pool 20 3 true).getD wit6Pool).busyContainers =
      wit6Pool.busyContainers.filter (fun x => x.id != 3) ∧
    ((ReturnContainer wit6Pool 20 3 false).getD wit6Pool).busyContainers =
      wit6Pool.busyContainers.filter (fun x => x.id != 3) :=
  claim_C6 wit6Pool 20 3 ⟨3, "n", PoolState.busy, 12, "C"⟩ ⟨2, "m", PoolState.warm, 4, "B"⟩
    (by decide) (by decide) (by decide)

open Pool in
/-- C2, corrected.  Disjointness of Warm and Busy holds after every pool
operation (from a well-formed pool), but the bound `|Warm| ≤ max_pool_size`
is enforced only on release: `PrewarmContainers` and `ScalePool` append
stem cells with no bound check (pool.go lines 204-222 and 235-253), so
they can exceed it.  Amended statement: after each of the six operations
the Warm and Busy sets are disjoint, and the bound, when it holds before,
is preserved by `GetContainer`, `ReturnContainer`, `CleanupIdleContainers`
and `Shutdown`. -/
theorem claim_C2 (p : ContainerPool) (now cid maxIdle : Nat) (r a : String)
    (d : Int) (reuse : Bool) (hwf : WF p) :
    WarmBusyDisjoint (GetContainer p now r a).2 ∧
    WarmBusyDisjoint ((ReturnContainer p now cid reuse).getD p) ∧
    WarmBusyDisjoint (PrewarmContainers p now) ∧
    WarmBusyDisjoint (ScalePool p now r d) ∧
    WarmBusyDisjoint (CleanupIdleContainers p now maxIdle) ∧
    WarmBusyDisjoint (Shutdown p) ∧
    (warmTotal p.warmContainers ≤ p.maxPoolSize →
      warmTotal (GetContainer p now r a).2.warmContainers ≤ p.maxPoolSize ∧
      warmTotal ((ReturnContainer p now cid reuse).getD p).warmContainers ≤ p.maxPoolSize ∧
      warmTotal (CleanupIdleContainers p now maxIdle).warmContainers ≤ p.maxPoolSize ∧
      warmTotal (Shutdown p).warmContainers ≤ p.maxPoolSize) := by
  refine ⟨warmBusyDisjoint_of_wf (wf_GetContainer p now r a hwf), ?_,
    warmBusyDisjoint_of_wf (wf_PrewarmContainers p now hwf),
    warmBusyDisjoint_of_wf (wf_ScalePool p now r d hwf),
    warmBusyDisjoint_of_wf (wf_CleanupIdleContainers p now maxIdle hwf),
    warmBusyDisjoint_of_wf (wf_Shutdown p), ?_⟩
  · cases hq : ReturnContainer p now cid reuse with
    | none => exact warmBusyDisjoint_of_wf hwf
    | some q => exact warmBusyDisjoint_of_wf (wf_ReturnContainer p now cid reuse hq hwf)
  · intro hb
    refine ⟨Nat.le_trans (warmTotal_GetContainer_le p now r a) hb, ?_,
      Nat.le_trans (warmTotal_Cleanup_le p now maxIdle) hb, ?_⟩
    · cases hq : ReturnContainer p now cid reuse with
      | none => exact hb
      | some q => exact warmTotal_ReturnContainer_le p now cid reuse hq hb
    · rw [warmTotal_Shutdown]
      exact Nat.zero_le _

open Pool in
/-- C2 counterexample: a fresh pool with `max_pool_size = 1` and a prewarm
configuration asking for two `go123` stem cells.  `PrewarmContainers`
creates both, leaving two Warm containers — the bound
`|Warm| ≤ max_pool_size` is violated right after a pool operation. -/
theorem claim_C2_counterexample :
    (NewContainerPool [("go123", 2)] 1).maxPoolSize = 1 ∧
    warmTotal (PrewarmContainers (NewContainerPool [("go123", 2)] 1) 0).warmContainers = 2 ∧
    ¬ warmTotal (PrewarmContainers (NewContainerPool [("go123", 2)] 1) 0).warmContainers ≤
        (NewContainerPool [("go123", 2)] 1).maxPoolSize := by
  decide

open Pool in
/-- C2 witness: the amended invariants evaluated on a small well-formed
pool with one warm and one busy container. -/
theorem claim_C2_witness :
    WarmBusyDisjoint (GetContainer wit2Pool 5 "go123" "A").2 ∧
    WarmBusyDisjoint ((ReturnContainer wit2Pool 5 1 true).getD wit2Pool) ∧
    WarmBusyDisjoint (PrewarmContainers wit2Pool 5) ∧
    WarmBusyDisjoint (ScalePool wit2Pool 5 "go123" 1) ∧
    WarmBusyDisjoint (CleanupIdleContainers wit2Pool 5 0) ∧
    WarmBusyDisjoint (Shutdown wit2Pool) ∧
    (warmTotal wit2Pool.warmContainers ≤ wit2Pool.maxPoolSize →
      warmTotal (GetContainer wit2Pool 5 "go123" "A").2.warmContainers ≤ wit2Pool.maxPoolSize ∧
      warmTotal ((ReturnContainer wit2Pool 5 1 true).getD wit2Pool).warmContainers ≤
        wit2Pool.maxPoolSize ∧
      warmTotal (CleanupIdleContainers wit2Pool 5 0).warmContainers ≤ wit2Pool.maxPoolSize ∧
      warmTotal (Shutdown wit2Pool).warmContainers ≤ wit2Pool.maxPoolSize) :=
  claim_C2 wit2Pool 5 1 0 "go123" "A" 1 true ⟨by decide, by decide⟩

/-- C7, corrected.  The code has three distinguishable error kinds for a
failed `/init`, not four: 4xx and 5xx responses both yield the single
`InitializationError` type (distinguished only by the recorded status
code), a transport failure under an exceeded deadline yields
`TimeoutError`, any other transport failure yields `ContainerError`, and
a failed body read is not an error at all.  Amended statement: exactly
this three-way classification. -/
theorem claim_C7 (status : Int) (body : String) (readOk : Bool)
    (hs : status ≠ 200) :
    Proxy.Init (Proxy.InitHttp.resp status readOk body) =
      Except.error (Proxy.ProxyError.initializationError
        "init request returned non-200 status" status (if readOk then body else "")) ∧
    Proxy.Init (Proxy.InitHttp.netErr true) =
      Except.error (Proxy.ProxyError.timeoutError "init request timed out") ∧
    Proxy.Init (Proxy.InitHttp.netErr false) =
      Except.error (Proxy.ProxyError.containerError "failed to connect to runtime container") ∧
    Proxy.Init (Proxy.InitHttp.resp 200 readOk body) = Except.ok () := by
  refine ⟨?_, rfl, rfl, ?_⟩
  · simp [Proxy.Init, hs]
  · simp [Proxy.Init]

/-- C7 counterexample: a 404 and a 500 `/init` response produce the same
error kind (`InitializationError`), so the 4xx/5xx split into
`InitClientError` vs `InitRuntimeError` does not exist in the code; and a
connect-level read failure after a 200 response yields success, not
`SandboxUnreachable`. -/
theorem claim_C7_counterexample :
    Proxy.initErrKind (Proxy.InitHttp.resp 404 true "client oops") =
      some Proxy.ErrKind.initialization ∧
    Proxy.initErrKind (Proxy.InitHttp.resp 500 true "server oops") =
      some Proxy.ErrKind.initialization ∧
    Proxy.initErrKind (Proxy.InitHttp.resp 404 true "client oops") =
      Proxy.initErrKind (Proxy.InitHttp.resp 500 true "server oops") ∧
    Proxy.Init (Proxy.InitHttp.resp 200 false "ignored") = Except.ok () :=
  ⟨rfl, rfl, rfl, rfl⟩

/-- C7 witness: the amended classification at a concrete 503 response. -/
theorem claim_C7_witness :
    Proxy.Init (Proxy.InitHttp.resp 503 true "boom") =
      Except.error (Proxy.ProxyError.initializationError
        "init request returned non-200 status" 503 (if true then "boom" else "")) ∧
    Proxy.Init (Proxy.InitHttp.netErr true) =
      Except.error (Proxy.ProxyError.timeoutError "init request timed out") ∧
    Proxy.Init (Proxy.InitHttp.netErr false) =
      Except.error (Proxy.ProxyError.containerError "failed to connect to runtime container") ∧
    Proxy.Init (Proxy.InitHttp.resp 200 true "boom") = Except.ok () :=
  claim_C7 503 "boom" true (by decide)

/-- C4, corrected.  The invoker does not classify the run outcome: for a
200 response the published status code is whatever `statusCode` the
runtime body carried (0 when absent, regardless of an `"error"` field),
and every `Run` failure — 5xx, timeout, unreachable, read or parse error —
surfaces as a handler error that the consumer publishes as status code
500 (neither 2 nor 3, and without the claimed timeout text).  Amended
statement: exactly that mapping. -/
theorem claim_C4 (status : Int) (body body2 : String)
    (parsed : Option Proxy.RunResult) (rr : Proxy.RunResult) (d : Bool)
    (hs : status ≠ 200) :
    Executor.activationStatusCode (Proxy.Run (Proxy.RunHttp.resp 200 body2 (some rr))) =
      rr.statusCode ∧
    Executor.activationStatusCode (Proxy.Run (Proxy.RunHttp.resp status body parsed)) = 500 ∧
    Executor.activationStatusCode (Proxy.Run (Proxy.RunHttp.netErr d)) = 500 ∧
    Executor.activationStatusCode (Proxy.Run Proxy.RunHttp.readErr) = 500 := by
  refine ⟨?_, ?_, ?_, rfl⟩
  · simp [Proxy.Run, Executor.activationStatusCode]
  · simp [Proxy.Run, Executor.activationStatusCode, hs]
  · cases d <;> rfl

/-- C4 counterexample: a 200 `/run` body carrying an `"error"` field (and
no `statusCode` field, hence Go zero value 0) is published with status
code 0, not 1; and a run timeout is published with status code 500, not 3. -/
theorem claim_C4_counterexample :
    Executor.activationStatusCode
      (Proxy.Run (Proxy.RunHttp.resp 200 "run body"
        (some { result := [], error := "nope", statusCode := 0 }))) = 0 ∧
    (0 : Int) ≠ 1 ∧
    Executor.activationStatusCode (Proxy.Run (Proxy.RunHttp.netErr true)) = 500 ∧
    (500 : Int) ≠ 3 := by
  decide

/-- C4 witness: the amended mapping at a concrete 502 rejection and a
concrete 200 body. -/
theorem claim_C4_witness :
    Executor.activationStatusCode (Proxy.Run (Proxy.RunHttp.resp 200 "ok body"
      (some { result := [("hello", "world")], error := "", statusCode := 0 }))) =
      ({ result := [("hello", "world")], error := "", statusCode := 0 } : Proxy.RunResult).statusCode ∧
    Executor.activationStatusCode
      (Proxy.Run (Proxy.RunHttp.resp 502 "boom" none)) = 500 ∧
    Executor.activationStatusCode (Proxy.Run (Proxy.RunHttp.netErr true)) = 500 ∧
    Executor.activationStatusCode (Proxy.Run Proxy.RunHttp.readErr) = 500 :=
  claim_C4 502 "boom" "ok body" none
    { result := [("hello", "world")], error := "", statusCode := 0 } true (by decide)

open Messaging in
/-- C3, corrected.  Every successfully parsed message yields exactly one
publication and exactly one acknowledgement, and publication precedes the
ack on the normal path — but on the past-deadline path the code acks
FIRST and publishes afterwards (part_001 lines 259-260), violating the
claimed ordering.  Amended statement: exactly one publish and one ack per
parsed message; the publish precedes the ack iff the message is not past
its deadline, and on the past-deadline path the ack precedes the
publish. -/
theorem claim_C3 (now : Int) (messageId : String) (m : InvocationMessage)
    (handler : InvocationMessage → Except String ActivationResult) :
    publishCount (processMessage now messageId (some m) handler) = 1 ∧
    ackCount (processMessage now messageId (some m) handler) = 1 ∧
    (¬ now > m.deadline → publishBeforeAck (processMessage now messageId (some m) handler)) ∧
    (now > m.deadline →
      (processMessage now messageId (some m) handler).findIdx isAck <
        (processMessage now messageId (some m) handler).findIdx isPublish) := by
  by_cases hd : now > m.deadline
  · simp [processMessage, hd, publishCount, ackCount, publishBeforeAck, isPublish, isAck,
      List.findIdx_cons]
  · cases hh : handler m with
    | ok r =>
      simp [processMessage, hd, hh, publishCount, ackCount, publishBeforeAck, isPublish,
        isAck, isInvoke, List.findIdx_cons]
    | error e =>
      simp [processMessage, hd, hh, publishCount, ackCount, publishBeforeAck, isPublish,
        isAck, isInvoke, List.findIdx_cons]

open Messaging in
/-- C3 counterexample: for a parsed message already past its deadline the
trace is acknowledge-then-publish: exactly one result is published, but
the publication does NOT happen before the ack, refuting the claimed
ordering. -/
theorem claim_C3_counterexample :
    processMessage 10 "m-1" (some cex3Msg) (fun _ => Except.error "unused") =
      [Effect.ackMsg "m-1",
       Effect.publishRes (errorResult cex3Msg 10 "Invocation deadline exceeded")] ∧
    publishCount (processMessage 10 "m-1" (some cex3Msg) (fun _ => Except.error "unused")) = 1 ∧
    ¬ publishBeforeAck (processMessage 10 "m-1" (some cex3Msg) (fun _ => Except.error "unused")) := by
  decide

open Messaging in
/-- C3 witness: the amended ordering at a message within its deadline and
a failing handler. -/
theorem claim_C3_witness :
    publishCount (processMessage 3 "m-2" (some wit3Msg) (fun _ => Except.error "boom")) = 1 ∧
    ackCount (processMessage 3 "m-2" (some wit3Msg) (fun _ => Except.error "boom")) = 1 ∧
    (¬ (3 : Int) > wit3Msg.deadline →
      publishBeforeAck (processMessage 3 "m-2" (some wit3Msg) (fun _ => Except.error "boom"))) ∧
    ((3 : Int) > wit3Msg.deadline →
      (processMessage 3 "m-2" (some wit3Msg) (fun _ => Except.error "boom")).findIdx isAck <
        (processMessage 3 "m-2" (some wit3Msg) (fun _ => Except.error "boom")).findIdx isPublish) :=
  claim_C3 3 "m-2" wit3Msg (fun _ => Except.error "boom")

open Messaging in
/-- C5, corrected.  A message whose deadline has passed is acknowledged
and answered with an internal-error result without ever invoking the
handler (so no sandbox is created) — but the published status code is
500, not the claimed 3, and the ack precedes the publication.  Amended
statement: the trace is exactly [ack, publish error-result], the error
result carries status code 500 and success = false, and the handler is
never invoked. -/
theorem claim_C5 (now : Int) (messageId : String) (m : InvocationMessage)
    (handler : InvocationMessage → Except String ActivationResult)
    (hd : now > m.deadline) :
    processMessage now messageId (some m) handler =
      [Effect.ackMsg messageId,
       Effect.publishRes (errorResult m now "Invocation deadline exceeded")] ∧
    (errorResult m now "Invocation deadline exceeded").response.statusCode = 500 ∧
    (errorResult m now "Invocation deadline exceeded").response.success = false ∧
    (∀ e ∈ processMessage now messageId (some m) handler, isInvoke e = false) := by
  refine ⟨by simp [processMessage, hd], rfl, rfl, ?_⟩
  intro e he
  simp [processMessage, hd] at he
  rcases he with he | he <;> rw [he] <;> rfl

open Messaging in
/-- C5 counterexample: the internal-error result published for a
past-deadline message has status code 500, not 3, refuting the claimed
status code (the trace also shows the ack happening before the
publication). -/
theorem claim_C5_counterexample :
    (errorResult cex5Msg 20 "Invocation deadline exceeded").response.statusCode = 500 ∧
    ¬ (errorResult cex5Msg 20 "Invocation deadline exceeded").response.statusCode = 3 ∧
    processMessage 20 "m-3" (some cex5Msg) (fun _ => Except.error "unused") =
      [Effect.ackMsg "m-3",
       Effect.publishRes (errorResult cex5Msg 20 "Invocation deadline exceeded")] := by
  decide

open Messaging in
/-- C5 witness: the amended behaviour at a concrete past-deadline
message. -/
theorem claim_C5_witness :
    processMessage 21 "m-4" (some cex5Msg) (fun _ => Except.error "unused2") =
      [Effect.ackMsg "m-4",
       Effect.publishRes (errorResult cex5Msg 21 "Invocation deadline exceeded")] ∧
    (errorResult cex5Msg 21 "Invocation deadline exceeded").response.statusCode = 500 ∧
    (errorResult cex5Msg 21 "Invocation deadline exceeded").response.success = false ∧
    (∀ e ∈ processMessage 21 "m-4" (some cex5Msg) (fun _ => Except.error "unused2"),
      isInvoke e = false) :=
  claim_C5 21 "m-4" cex5Msg (fun _ => Except.error "unused2") (by decide)

open Executor in
/-- C8, corrected.  Only the `/init` call is skipped for a warm
already-initialized sandbox: the executor fetches the action code from
the blob store on EVERY invocation (line 502 of the executor file runs
before the cold-start check), so the claim that a warm acquisition
performs no code fetch fails.  Amended statement: on every invocation
that acquires a container the code fetch happens, and on a warm
(non-cold) acquisition no `/init` call happens before `/run`. -/
theorem claim_C8 (isColdStart fetchOk initOk runOk : Bool) :
    Step.fetchCodeStep ∈ HandleInvocation true isColdStart fetchOk initOk runOk ∧
    (isColdStart = false →
      Step.initStep ∉ HandleInvocation true isColdStart fetchOk initOk runOk) := by
  constructor
  · simp [HandleInvocation]
  · intro hc
    subst hc
    cases fetchOk <;> cases runOk <;> simp [HandleInvocation, runTail]

open Executor in
/-- C8 counterexample: a warm invocation (cold-start = false) with every
call succeeding still contains the code-fetch step, refuting "performs
neither a code fetch nor an /init call"; the `/init` step is indeed
absent. -/
theorem claim_C8_counterexample :
    Step.fetchCodeStep ∈ HandleInvocation true false true true true ∧
    Step.initStep ∉ HandleInvocation true false true true true ∧
    HandleInvocation true false true true true =
      [Step.getContainerStep, Step.fetchCodeStep, Step.runStep,
       Step.collectLogsStep, Step.publishStep, Step.returnToPoolStep] := by
  decide

open Executor in
/-- C8 witness: the amended statement at a concrete warm invocation. -/
theorem claim_C8_witness :
    Step.fetchCodeStep ∈ HandleInvocation true false true false true ∧
    (false = false → Step.initStep ∉ HandleInvocation true false true false true) :=
  claim_C8 false true false true

open Logs in
/-- C9, corrected.  Collection stops at the first frame that parses to a
well-formed log line containing the marker (frames after it are never
read), and no emitted formatted line contains the marker — but a
MALFORMED frame containing the marker (no parsable timestamp line, e.g.
the bare marker with no leading timestamp) is skipped like any malformed
frame and does not stop collection.  Amended statement: parsing ignores
everything after the first well-formed marker frame, provided the frames
before it are not themselves well-formed marker frames, and every
formatted line (timestamps being marker-free, as RFC3339 text is) is
marker-free. -/
theorem claim_C9 (tsParse : List Char → Option Nat) (fmtTs : Nat → List Char)
    (fs fs1 fs2 : List Frame) (f : Frame)
    (hok : ∀ g ∈ fs1, markerFrame tsParse g = false)
    (hf : markerFrame tsParse f = true)
    (hfmt : ∀ t, ¬ Occurs logMarker (fmtTs t)) :
    parseLogs tsParse (fs1 ++ f :: fs2) = parseLogs tsParse (fs1 ++ [f]) ∧
    ∀ line ∈ FormatLogs fmtTs (parseLogs tsParse fs), ¬ Occurs logMarker line :=
  ⟨parseLogs_cutoff tsParse fs1 f fs2 hok hf,
   formatLogs_marker_free tsParse fmtTs fs hfmt⟩

open Logs in
/-- C9 counterexample: a frame whose payload is exactly the sentinel
marker (no timestamp, hence malformed) contains the marker, yet the frame
after it is still read and parsed into the returned log lines — refuting
"frames after it are never read" for marker-containing frames in
general. -/
theorem claim_C9_counterexample :
    Occurs logMarker (Frame.mk 1 logMarker).payload ∧
    parseLogs cex9Ts [Frame.mk 1 logMarker, Frame.mk 1 "T hello".data] =
      [LogLine.mk 0 "stdout".data "hello".data] := by
  constructor
  · exact ⟨[], [], by simp⟩
  · decide

open Logs in
/-- C9 witness: the amended theorem on a concrete stream — one plain
frame, then a well-formed marker frame, then a frame that is provably
never read; and a two-frame stream whose formatted output is
marker-free. -/
theorem claim_C9_witness :
    parseLogs cex9Ts
        ([Frame.mk 1 "T one".data] ++
          Frame.mk 1 ("T XXX_THE_END_OF_A_WHISK_ACTIVATION_XXX".data) ::
            [Frame.mk 1 "T after".data]) =
      parseLogs cex9Ts
        ([Frame.mk 1 "T one".data] ++
          [Frame.mk 1 ("T XXX_THE_END_OF_A_WHISK_ACTIVATION_XXX".data)]) ∧
    ∀ line ∈ FormatLogs (fun _ => "TS".data)
        (parseLogs cex9Ts [Frame.mk 2 "T hello".data,
          Frame.mk 1 ("T XXX_THE_END_OF_A_WHISK_ACTIVATION_XXX".data)]),
      ¬ Occurs logMarker line :=
  claim_C9 cex9Ts (fun _ => "TS".data)
    [Frame.mk 2 "T hello".data,
      Frame.mk 1 ("T XXX_THE_END_OF_A_WHISK_ACTIVATION_XXX".data)]
    [Frame.mk 1 "T one".data] [Frame.mk 1 "T after".data]
    (Frame.mk 1 ("T XXX_THE_END_OF_A_WHISK_ACTIVATION_XXX".data))
    (by decide) (by decide) (fun _ => (by decide : ¬ Logs.Occurs Logs.logMarker "TS".data))
